import Mathlib

/-!
Verification of the we-snark core: the SCS (powers-of-tau) commitment scheme,
the IIP / NonZero / Mul gadgets, the LV aggregator and the witness-encryption
KEM pipeline, checked against the natural-language specification.

Embedding conventions.

* The pairing groups G1, G2, GT of the source are cyclic of prime order p
  (the order of the scalar field Fr).  We embed each group element by its
  discrete logarithm with respect to the fixed generator, i.e. as an element
  of the scalar field `F`.  This embedding is exact: G1, G2 and the subgroup
  of GT generated by e(g1, g2) are each isomorphic to Z/p, group addition
  becomes field addition of logs, scalar multiplication (`mul_bigint`)
  becomes field multiplication, and the bilinear pairing becomes the product
  of the two logs (`e(a·g1, b·g2) = e(g1,g2)^(a*b)`).  GT is written
  multiplicatively in the source (`Fq12` with `*`, `inverse`, `pow`); in log
  form these are `+`, `-` and scalar multiplication.

* Dense polynomials (`ark_poly::DensePolynomial`) are coefficient lists in
  ascending order, exactly as in the source.  The source keeps lists trimmed
  of trailing zeros; we do not trim eagerly, which is observationally
  identical here because commitments skip zero coefficients and evaluation
  ignores trailing zeros.

* `rand` draws are passed as explicit arguments (the drawn `u64` for `setup`,
  the drawn row vector `r` for `lv_make_header`).

* External primitives are modelled from their documented contracts:
  `GeneralEvaluationDomain` is the multiplicative subgroup generated by a
  root of unity `omega` with `element i = omega^i`, `ifft` is the inverse
  discrete Fourier transform and `vanishing_polynomial` is `X^n - 1`;
  `DensePolynomial` division (`/`) is euclidean division by the trimmed
  divisor; SHA-256 is an injective hash (modelled as the tuple of hashed
  inputs); AES-256-GCM is an ideal AEAD (the tag authenticates exactly the
  key, nonce, associated data and ciphertext; the CTR masking is modelled as
  the identity bijection on byte strings, which is sound for every claim
  proved here since none depends on the ciphertext bytes themselves).
-/

namespace WeSnark

variable {F : Type} [Field F] [DecidableEq F]

/-- Discrete-log model of the bilinear pairing: `e(a·g1, b·g2)` has logarithm
`a * b` with respect to `e(g1, g2)`. -/
def pairing (a b : F) : F := a * b

/-! ## Polynomial layer (coefficient lists, ascending order) -/

/-- Ascending-order Horner evaluation; reference form used throughout the
proofs. -/
def evalA (x : F) : List F → F
  | [] => 0
  | c :: t => c + x * evalA x t

/-- Descending-order Horner fold, the shape of the loop in `CRS::eval_poly`
(which iterates the coefficients in reverse). -/
def evalD (x : F) (l : List F) : F := l.foldl (fun acc c => acc * x + c) 0

/-- `CRS::eval_poly`: Horner evaluation, folding the reversed coefficient
list as the source does. -/
def eval_poly (coeffs : List F) (x : F) : F := evalD x coeffs.reverse

/-- `helpers::add_constant`: `p(X) + c` (push `c` if empty, else add to the
constant coefficient). -/
def add_constant (p : List F) (c : F) : List F :=
  match p with
  | [] => [c]
  | a :: t => (a + c) :: t

/-- `helpers::sub_poly`: coefficient-wise `a(X) - b(X)`. -/
def sub_poly : List F → List F → List F
  | p, [] => p
  | [], b :: q => -b :: sub_poly [] q
  | a :: p, b :: q => (a - b) :: sub_poly p q

/-- `helpers::scale_poly`: `c * p(X)` (the source maps `x * c` over the
coefficients). -/
def scale_poly (p : List F) (c : F) : List F := p.map (fun a => a * c)

/-- `helpers::mul_by_xk`: `X^k * p(X)` by prepending `k` zero
coefficients. -/
def mul_by_xk (p : List F) (k : ℕ) : List F := List.replicate k 0 ++ p

/-- Coefficient-wise polynomial addition (used to express products). -/
def add_poly : List F → List F → List F
  | p, [] => p
  | [], b :: q => b :: add_poly [] q
  | a :: p, b :: q => (a + b) :: add_poly p q

/-- `helpers::mul_poly`: polynomial product (the convolution computed by
`DensePolynomial::mul`). -/
def mul_poly : List F → List F → List F
  | [], _ => []
  | a :: p, q => add_poly (scale_poly q a) (0 :: mul_poly p q)

/-- Strip trailing zero coefficients (the normal form maintained by
`DensePolynomial::from_coefficients_vec`). -/
def trim (l : List F) : List F :=
  (l.reverse.dropWhile (fun c => decide (c = 0))).reverse

/-- One long-division pass in descending coefficient order against a monic
divisor `X^m + den'` (with `den'` the descending list of the `m` lower
coefficients).  `fuel` bounds the recursion; callers pass the length of the
dividend.  Returns (quotient, remainder), both descending. -/
def divMonicDescAux (den' : List F) : ℕ → List F → List F × List F
  | 0, num => ([], num)
  | fuel + 1, num =>
    match num with
    | [] => ([], [])
    | a :: rest =>
      if rest.length < den'.length then ([], a :: rest)
      else
        let stepped :=
          (List.zipWith (fun r d => r - a * d) (rest.take den'.length) den') ++
            rest.drop den'.length
        let qr := divMonicDescAux den' fuel stepped
        (a :: qr.1, qr.2)

/-- Model of `DensePolynomial` euclidean division `P / Q` (the external
`ark_poly` operation used by `helpers::div_rem`): divide by the trimmed
divisor after normalising it to be monic.  Division by the zero polynomial
panics in the source and is never reached on the verified paths; the model
returns the zero quotient there. -/
def poly_div (num den : List F) : List F :=
  match (trim den).getLast? with
  | none => []
  | some lc =>
    let den' := (((trim den).dropLast).map (fun c => c / lc)).reverse
    ((divMonicDescAux den' num.reverse.length num.reverse).1.map
        (fun c => c / lc)).reverse

/-- `helpers::div_rem`: `q = P / Q` and `r = P - q * Q`, exactly as the
source computes them. -/
def div_rem (p q : List F) : List F × List F :=
  (poly_div p q, sub_poly p (mul_poly (poly_div p q) q))

/-! ### Synthetic division by `(X - d)` (`nonzero::divide_by_linear`) -/

/-- The running recurrence of the synthetic division: given the previous
value `prev`, produce `b_i = a_i + d * b_(i-1)` over the remaining descending
coefficients. -/
def synGo (d : F) : F → List F → List F
  | _, [] => []
  | prev, a :: rest => (a + d * prev) :: synGo d (a + d * prev) rest

/-- `nonzero::divide_by_linear`: synthetic division of `p` by `(X - d)`,
returning `(Q, r)` with `p = (X - d) * Q + r`.  Mirrors the source: reverse
to descending order, run the recurrence, split off the last value as the
remainder. -/
def divide_by_linear (p : List F) (d : F) : List F × F :=
  if p.length = 0 then ([], 0)
  else if p.length = 1 then ([], p.getD 0 0)
  else
    match p.reverse with
    | [] => ([], 0)
    | a0 :: rest =>
      let b := a0 :: synGo d a0 rest
      (b.dropLast.reverse, b.getLastD 0)

/-! ## SCS: structured common reference string (`scs.rs`) -/

/-- `scs::CRS` in the discrete-log model: group elements are logarithms in
`F`.  `g1_pows i` / `g2_pows i` are the logs of `[τ^i]₁` / `[τ^i]₂` (the
source materializes the vectors for `0 ≤ i ≤ N` and would panic beyond; the
verified operations never index past `N` because all committed polynomials
keep degree at most `N`). -/
structure CRS (F : Type) where
  n : ℕ
  n_inv : F
  tau : F
  g1_pows : ℕ → F
  g2_pows : ℕ → F
  N : ℕ
  vanishing_coeffs : List F
  domain_gen : F

/-- `CRS::setup`.  The `rng.gen::<u64>()` draw is the explicit sample `u`;
the source maps it into the field with `Fr::from`, so the trapdoor is
`(u : F)`.  The radix-2 evaluation domain is represented by its generator
`ω` (the external `GeneralEvaluationDomain` has `element i = ω^i`) and its
vanishing polynomial is `X^n - 1` with ascending coefficients
`[-1, 0, …, 0, 1]`. -/
def CRS.setup (u : ℕ) (n : ℕ) (ω : F) : CRS F :=
  { n := n
    n_inv := (n : F)⁻¹
    tau := (u : F)
    g1_pows := fun i => (u : F) ^ i
    g2_pows := fun i => (u : F) ^ i
    N := 2 * n + 4
    vanishing_coeffs := (-1 : F) :: (List.replicate (n - 1) 0 ++ [1])
    domain_gen := ω }

/-- Commitment against a powers sequence: fold over the enumerated
coefficients, skipping zero coefficients exactly as the source does. -/
def commit_pows (pows : ℕ → F) (coeffs : List F) : F :=
  coeffs.enum.foldl
    (fun acc jc => if jc.2 = 0 then acc else acc + jc.2 * pows jc.1) 0

/-- `CRS::commit_poly_g1`: `[F(τ)]₁ = Σ f_j · [τ^j]₁`. -/
def commit_poly_g1 (crs : CRS F) (coeffs : List F) : F :=
  commit_pows crs.g1_pows coeffs

/-- `CRS::commit_poly_g2`: `[F(τ)]₂ = Σ f_j · [τ^j]₂`. -/
def commit_poly_g2 (crs : CRS F) (coeffs : List F) : F :=
  commit_pows crs.g2_pows coeffs

/-- `CRS::g1_tau_pow`. -/
def CRS.g1_tau_pow (crs : CRS F) (k : ℕ) : F := crs.g1_pows k

/-- `CRS::g2_tau_pow`. -/
def CRS.g2_tau_pow (crs : CRS F) (k : ℕ) : F := crs.g2_pows k

/-- `GeneralEvaluationDomain::element`: the `i`-th domain point `ω^i`. -/
def CRS.domainElement (crs : CRS F) (i : ℕ) : F := crs.domain_gen ^ i

/-- `CRS::interpolate` (body): the external radix-2 `ifft_in_place` computes
the inverse DFT `c_j = n⁻¹ · Σ_k v_k · ω^(-jk)`. -/
def interpolate (crs : CRS F) (evals : List F) : List F :=
  (List.range crs.n).map fun j =>
    crs.n_inv * ∑ k ∈ Finset.range crs.n, evals.getD k 0 * ((crs.domain_gen ^ k)⁻¹) ^ j

/-- `CRS::interpolate` together with its `assert_eq!(evals.len(), self.n)`
precondition: the call aborts (here: `none`) unless the input has length
`n`. -/
def interpolate_checked (crs : CRS F) (evals : List F) : Option (List F) :=
  if evals.length = crs.n then some (interpolate crs evals) else none

/-! ## IIP gadget (`iip.rs`) -/

/-- `iip::IIPDigest` (group elements as logs). -/
structure IIPDigest (F : Type) where
  x_star : F
  y_star : F
  C : F
  Z_tau_2 : F
  tau_2 : F
  tau_N_minus_n_plus_2_2 : F
  tau_N_2 : F
  n : ℕ
  N : ℕ

/-- `iip::IIPProof` (group elements as logs). -/
structure IIPProof (F : Type) where
  w_tau_2 : F
  v_g1 : F
  QZ_tau_1 : F
  QX_tau_1 : F
  QX_hat_tau_1 : F
  v_hat_tau_1 : F

/-- `iip::iip_digest` (requires `s.length = n`, asserted by the source).
Note the source sets `C := A_tau_1` (the scaled variant is commented out)
and, despite the field name, stores `[τ^(N-n+1)]₂`. -/
def iip_digest (crs : CRS F) (s : List F) : IIPDigest F :=
  { x_star := 0
    y_star := crs.n_inv
    C := commit_poly_g1 crs (interpolate crs s)
    Z_tau_2 := commit_poly_g2 crs crs.vanishing_coeffs
    tau_2 := crs.g2_tau_pow 1
    tau_N_minus_n_plus_2_2 := crs.g2_tau_pow (crs.N - crs.n + 1)
    tau_N_2 := crs.g2_tau_pow crs.N
    n := crs.n
    N := crs.N }

/-- `v = Σ wᵢ·sᵢ`, the zip-fold of `iip_prove`. -/
def iip_v (s w : List F) : F :=
  (w.zip s).foldl (fun acc p => acc + p.1 * p.2) 0

/-- The prover's `P(X) = A(X)·B(X) - v·n` (`t = v * n_inv⁻¹` subtracted from
the constant coefficient). -/
def iip_P (crs : CRS F) (s w : List F) : List F :=
  add_constant (mul_poly (interpolate crs s) (interpolate crs w))
    (-(iip_v s w * crs.n_inv⁻¹))

/-- Step 1 of the prover: divide `P` by `Z`, giving `(Q_Z, R)`. -/
def iip_QZR (crs : CRS F) (s w : List F) : List F × List F :=
  div_rem (iip_P crs s w) crs.vanishing_coeffs

/-- Step 2 of the prover: if `R(0) ≠ 0`, shift `c = R(0)/Z(0)` from `R`
into `Q_Z` so that the new remainder vanishes at `x* = 0`. -/
def iip_QZR2 (crs : CRS F) (s w : List F) : List F × List F :=
  if eval_poly (iip_QZR crs s w).2 0 = 0 then iip_QZR crs s w
  else
    (add_constant (iip_QZR crs s w).1
        (eval_poly (iip_QZR crs s w).2 0 * (eval_poly crs.vanishing_coeffs 0)⁻¹),
      sub_poly (iip_QZR crs s w).2
        (scale_poly crs.vanishing_coeffs
          (eval_poly (iip_QZR crs s w).2 0 * (eval_poly crs.vanishing_coeffs 0)⁻¹)))

/-- Step 3 of the prover: `Q_X = R / (X - x*)` with `x* = 0`. -/
def iip_QX (crs : CRS F) (s w : List F) : List F :=
  (div_rem (iip_QZR2 crs s w).2 [-(0 : F), 1]).1

/-- `iip::iip_prove` (requires `s.length = w.length = n`, asserted by the
source). -/
def iip_prove (crs : CRS F) (s w : List F) : IIPProof F :=
  { w_tau_2 := commit_poly_g2 crs (interpolate crs w)
    v_g1 := 1 * iip_v s w
    QZ_tau_1 := commit_poly_g1 crs (iip_QZR2 crs s w).1
    QX_tau_1 := commit_poly_g1 crs (iip_QX crs s w)
    QX_hat_tau_1 := commit_poly_g1 crs (mul_by_xk (iip_QX crs s w) (crs.N - crs.n + 1))
    v_hat_tau_1 := commit_poly_g1 crs (List.replicate crs.N 0 ++ [iip_v s w]) }

/-- `iip::iip_verify`: the three pairing checks, with early returns folded
into a boolean conjunction. -/
def iip_verify (d : IIPDigest F) (pi : IIPProof F) : Bool :=
  decide (pairing d.C pi.w_tau_2 =
      pairing (pi.v_g1 * d.y_star⁻¹) 1 + pairing pi.QX_tau_1 d.tau_2 +
        pairing pi.QZ_tau_1 d.Z_tau_2) &&
    decide (pairing pi.QX_tau_1 d.tau_N_minus_n_plus_2_2 =
      pairing pi.QX_hat_tau_1 1) &&
    decide (pairing pi.v_g1 d.tau_N_2 = pairing pi.v_hat_tau_1 1)

/-! ## NonZero gadget (`nonzero.rs`) -/

/-- `nonzero::NonZeroProof`. -/
structure NonZeroProof (F : Type) where
  q0_tau_1 : F
  w_tau_2 : F

/-- `B(X) - 1` as computed by the prover (constant coefficient decremented). -/
def nonzero_Bm1 (crs : CRS F) (w : List F) : List F :=
  add_constant (interpolate crs w) (-1)

/-- The synthetic division `(B(X) - 1) / (X - D[idx_one])` of the prover. -/
def nonzero_div (crs : CRS F) (w : List F) (idx_one : ℕ) : List F × F :=
  divide_by_linear (nonzero_Bm1 crs w) (crs.domainElement idx_one)

/-- `nonzero::nonzero_prove` (release behaviour: the proof is returned
unconditionally). -/
def nonzero_prove (crs : CRS F) (w : List F) (idx_one : ℕ) : NonZeroProof F :=
  { q0_tau_1 := commit_poly_g1 crs (nonzero_div crs w idx_one).1
    w_tau_2 := commit_poly_g2 crs (interpolate crs w) }

/-- `nonzero::nonzero_prove` with its
`debug_assert!(rem.is_zero(), "B(X) - 1 not divisible by (X - d)")`:
the prover aborts (here `none`) when the synthetic division leaves a
non-zero remainder. -/
def nonzero_prove_checked (crs : CRS F) (w : List F) (idx_one : ℕ) :
    Option (NonZeroProof F) :=
  if (nonzero_div crs w idx_one).2 = 0 then some (nonzero_prove crs w idx_one)
  else none

/-- `nonzero::nonzero_verify`:
`e(g1, [B(τ)]₂) = e(g1, g2) + e([Q0(τ)]₁, [τ - d]₂)` (GT written
additively in the source's `PairingOutput`). -/
def nonzero_verify (crs : CRS F) (pi : NonZeroProof F) (idx_one : ℕ) : Bool :=
  decide (pairing 1 pi.w_tau_2 =
    pairing 1 1 +
      pairing pi.q0_tau_1 (crs.g2_tau_pow 1 - 1 * crs.domainElement idx_one))

/-! ## LV aggregator (`verifier.rs`) -/

/-- `verifier::ColSide`. -/
inductive ColSide where
  | ProofG1PublicG2 : ColSide
  | ProofG2PublicG1 : ColSide
deriving DecidableEq

/-- `verifier::LVColMeta`. -/
structure LVColMeta (F : Type) where
  side : ColSide
  g1_pub : Option F
  g2_pub : Option F

/-- `verifier::ProofElem`. -/
inductive ProofElem (F : Type) where
  | G1 : F → ProofElem F
  | G2 : F → ProofElem F
deriving DecidableEq

/-- `verifier::LVDigest`. -/
structure LVDigest (F : Type) where
  iip_x : IIPDigest F
  iip_y : IIPDigest F
  iip_z : IIPDigest F
  one_idx : ℕ
  mul_z_tau_2 : F
  instance_z : F
  d_bound : ℕ
  tau_N_minus_d_1 : F

/-- `verifier::LVProof`.  Note the raw witness vector `w` carried as plain
field elements. -/
structure LVProof (F : Type) where
  iip_x : IIPProof F
  iip_y : IIPProof F
  iip_z : IIPProof F
  nz : NonZeroProof F
  w : List F
  p_tau_1 : F
  h_tau_1 : F
  a_tau_1 : F
  b_tau_1 : F
  c_tau_1 : F
  b_tau_2 : F
  w_hat_tau_1 : F

/-- `verifier::LV_NUM_COORDS`. -/
def LV_NUM_COORDS : ℕ := 18

/-- `verifier::build_lv_coords`: the 18 GT coordinates `c0 … c17`, guarded
by the equality of the two `B(τ)` commitments. -/
def build_lv_coords (crs : CRS F) (dg : LVDigest F) (pi : LVProof F) :
    Option (List F) :=
  if pi.iip_z.w_tau_2 ≠ pi.nz.w_tau_2 then none
  else
    some
      [pairing dg.iip_z.C pi.iip_z.w_tau_2,
        pairing (pi.iip_z.v_g1 * dg.iip_z.y_star⁻¹) 1,
        pairing pi.iip_z.QX_tau_1 dg.iip_z.tau_2,
        pairing pi.iip_z.QZ_tau_1 dg.iip_z.Z_tau_2,
        pairing pi.iip_z.QX_tau_1 dg.iip_z.tau_N_minus_n_plus_2_2,
        pairing pi.iip_z.QX_hat_tau_1 1,
        pairing pi.iip_z.v_g1 dg.iip_z.tau_N_2,
        pairing pi.iip_z.v_hat_tau_1 1,
        pairing 1 pi.nz.w_tau_2,
        pairing pi.nz.q0_tau_1 (crs.g2_tau_pow 1 - 1 * crs.domainElement dg.one_idx),
        pairing pi.p_tau_1 1,
        pairing pi.h_tau_1 dg.mul_z_tau_2,
        pairing pi.a_tau_1 1,
        pairing pi.b_tau_1 1,
        pairing pi.iip_z.v_g1 1,
        pairing pi.c_tau_1 1,
        pairing dg.tau_N_minus_d_1 pi.iip_z.w_tau_2,
        pairing pi.w_hat_tau_1 1]

/-- `verifier::build_proof_side_elems`: the proof-side element of each of
the 18 columns. -/
def build_proof_side_elems (_crs : CRS F) (dg : LVDigest F) (pi : LVProof F) :
    Option (List (ProofElem F)) :=
  if pi.iip_z.w_tau_2 ≠ pi.nz.w_tau_2 then none
  else
    some
      [ProofElem.G2 pi.iip_z.w_tau_2,
        ProofElem.G1 (pi.iip_z.v_g1 * dg.iip_z.y_star⁻¹),
        ProofElem.G1 pi.iip_z.QX_tau_1,
        ProofElem.G1 pi.iip_z.QZ_tau_1,
        ProofElem.G1 pi.iip_z.QX_tau_1,
        ProofElem.G1 pi.iip_z.QX_hat_tau_1,
        ProofElem.G1 pi.iip_z.v_g1,
        ProofElem.G1 pi.iip_z.v_hat_tau_1,
        ProofElem.G2 pi.nz.w_tau_2,
        ProofElem.G1 pi.nz.q0_tau_1,
        ProofElem.G1 pi.p_tau_1,
        ProofElem.G1 pi.h_tau_1,
        ProofElem.G1 pi.a_tau_1,
        ProofElem.G1 pi.b_tau_1,
        ProofElem.G1 pi.iip_z.v_g1,
        ProofElem.G1 pi.c_tau_1,
        ProofElem.G2 pi.iip_z.w_tau_2,
        ProofElem.G1 pi.w_hat_tau_1]

/-- `verifier::LVShape` (`a` as 8 rows of 18 signed entries, `b` as the 8
GT constants, in logs). -/
structure LVShape (F : Type) where
  rows : ℕ
  a : List (List ℤ)
  b : List F

/-- `LVDigest::linear_shape`: the literal 8×18 matrix and the right-hand
side `b` (`gt_one = 1_GT` is log `0`, `b[3] = e(g1,g2)` and
`b[7] = e(z0·g1, g2)`). -/
def LVDigest.linear_shape (dg : LVDigest F) (_crs : CRS F) : LVShape F :=
  { rows := 8
    a :=
      [[1, -1, -1, -1, 0, 0, 0, 0, 0, 0, 0, 0, 0, 0, 0, 0, 0, 0],
        [0, 0, 0, 0, 1, -1, 0, 0, 0, 0, 0, 0, 0, 0, 0, 0, 0, 0],
        [0, 0, 0, 0, 0, 0, 1, -1, 0, 0, 0, 0, 0, 0, 0, 0, 0, 0],
        [0, 0, 0, 0, 0, 0, 0, 0, 1, -1, 0, 0, 0, 0, 0, 0, 0, 0],
        [0, 0, 0, 0, 0, 0, 0, 0, 0, 0, 1, -1, 0, 0, 0, 0, 0, 0],
        [0, 0, 0, 0, 0, 0, 0, 0, 0, 0, 0, 0, 0, 0, 1, -1, 0, 0],
        [0, 0, 0, 0, 0, 0, 0, 0, 0, 0, 0, 0, 0, 0, 0, 0, 1, -1],
        [0, 0, 0, 0, 0, 0, 0, 0, 0, 0, 0, 0, 0, 0, 1, 0, 0, 0]]
    b := [0, 0, 0, pairing 1 1, 0, 0, 0, pairing (1 * dg.instance_z) 1] }

/-- `LVDigest::column_metadata`: public base and orientation of each of the
18 columns (generators are log `1`). -/
def LVDigest.column_metadata (dg : LVDigest F) (crs : CRS F) : List (LVColMeta F) :=
  [⟨ColSide.ProofG2PublicG1, some dg.iip_z.C, none⟩,
    ⟨ColSide.ProofG1PublicG2, none, some 1⟩,
    ⟨ColSide.ProofG1PublicG2, none, some dg.iip_z.tau_2⟩,
    ⟨ColSide.ProofG1PublicG2, none, some dg.iip_z.Z_tau_2⟩,
    ⟨ColSide.ProofG1PublicG2, none, some dg.iip_z.tau_N_minus_n_plus_2_2⟩,
    ⟨ColSide.ProofG1PublicG2, none, some 1⟩,
    ⟨ColSide.ProofG1PublicG2, none, some dg.iip_z.tau_N_2⟩,
    ⟨ColSide.ProofG1PublicG2, none, some 1⟩,
    ⟨ColSide.ProofG2PublicG1, some 1, none⟩,
    ⟨ColSide.ProofG1PublicG2, none,
      some (crs.g2_tau_pow 1 - 1 * crs.domainElement dg.one_idx)⟩,
    ⟨ColSide.ProofG1PublicG2, none, some 1⟩,
    ⟨ColSide.ProofG1PublicG2, none, some dg.mul_z_tau_2⟩,
    ⟨ColSide.ProofG1PublicG2, none, some 1⟩,
    ⟨ColSide.ProofG1PublicG2, none, some 1⟩,
    ⟨ColSide.ProofG1PublicG2, none, some 1⟩,
    ⟨ColSide.ProofG1PublicG2, none, some 1⟩,
    ⟨ColSide.ProofG2PublicG1, some dg.tau_N_minus_d_1, none⟩,
    ⟨ColSide.ProofG1PublicG2, none, some 1⟩]

/-- `verifier::recover_sb_via_linear_check`: the 8 linear equations
`Σ_j a[i][j]·c_j = b_i` (GT in logs; `lhs` starts at `1_GT` = `0`, entries
`1` multiply by `c_j`, entries `-1` by the inverse, any other entry is
skipped, as in the source's pair of `if`s). -/
def recover_sb_via_linear_check (shape : LVShape F) (coords : List F) : Bool :=
  (List.range shape.rows).all fun i =>
    decide
      ((List.range LV_NUM_COORDS).foldl
        (fun lhs j =>
          if (shape.a.getD i []).getD j 0 = 0 then lhs
          else if (shape.a.getD i []).getD j 0 = 1 then lhs + coords.getD j 0
          else if (shape.a.getD i []).getD j 0 = -1 then lhs + (-(coords.getD j 0))
          else lhs)
        0 = shape.b.getD i 0)

/-- `verifier::lv_verify`, with the `cfg(debug_assertions)` gadget checks
included (the source lists that block twice; it is idempotent).  The final
steps are the two group-level Mul binding checks, the `P = A·B - C` check
and the linear system over the coordinates. -/
def lv_verify (crs : CRS F) (dg : LVDigest F) (pi : LVProof F) : Bool :=
  if pi.w.length ≠ 4 then false
  else if iip_verify dg.iip_x pi.iip_x = false then false
  else if iip_verify dg.iip_y pi.iip_y = false then false
  else if iip_verify dg.iip_z pi.iip_z = false then false
  else if nonzero_verify crs pi.nz dg.one_idx = false then false
  else if pairing pi.a_tau_1 1 ≠ pairing pi.iip_x.v_g1 1 then false
  else if pairing pi.b_tau_1 1 ≠ pairing pi.iip_y.v_g1 1 then false
  else if pairing pi.a_tau_1 pi.b_tau_2 ≠ pairing pi.p_tau_1 1 + pairing pi.c_tau_1 1
    then false
  else
    match build_lv_coords crs dg pi with
    | none => false
    | some coords => recover_sb_via_linear_check (dg.linear_shape crs) coords

/-! ## Mul gadget (`mul_snark.rs`) -/

/-- `mul_snark::MulWitness`. -/
structure MulWitness (F : Type) where
  x : F
  y : F
  z : F

/-- `MulWitness::to_vec`: the evaluation vector `[x, y, z, 1]`. -/
def MulWitness.to_vec (w : MulWitness F) : List F := [w.x, w.y, w.z, 1]

/-- `mul_snark::MulDigest`. -/
structure MulDigest (F : Type) where
  lv : LVDigest F
  s_x : List F
  s_y : List F
  s_z : List F

/-- `mul_snark::MulProof`. -/
structure MulProof (F : Type) where
  lv : LVProof F

/-- The QAP polynomial `P(X) = A(X)·B(X) - C(X)` of
`build_mul_qap_polys` (`A = [x]`, `B = [y]`, `C = [z]` as constant
polynomials). -/
def mul_qap_p (w : MulWitness F) : List F :=
  add_constant (mul_poly [w.x] [w.y]) (-w.z)

/-- The Mul QAP vanishing polynomial `Z(X) = X - 1`. -/
def mul_z_poly : List F := [-(1 : F), 1]

/-- `mul_snark::compute_h_poly`: `H = P / Z` (the remainder is checked by a
`debug_assert` and discarded). -/
def compute_h_poly (w : MulWitness F) : List F :=
  (div_rem (mul_qap_p w) mul_z_poly).1

/-- `MulDigest::setup` (the source asserts `crs.n = 4`): three IIP digests
for the selectors, the NonZero index `one_idx = 3`, the Mul vanishing
commitment, the instance `z0` and the MaxDeg parameters `d = n - 1`,
`[τ^(N-d)]₁`. -/
def MulDigest.setup (crs : CRS F) (z0 : F) : MulDigest F :=
  { lv :=
      { iip_x := iip_digest crs [1, 0, 0, 0]
        iip_y := iip_digest crs [0, 1, 0, 0]
        iip_z := iip_digest crs [0, 0, 1, 0]
        one_idx := 3
        mul_z_tau_2 := commit_poly_g2 crs mul_z_poly
        instance_z := z0
        d_bound := crs.n - 1
        tau_N_minus_d_1 := crs.g1_tau_pow (crs.N - (crs.n - 1)) }
    s_x := [1, 0, 0, 0]
    s_y := [0, 1, 0, 0]
    s_z := [0, 0, 1, 0] }

/-- `mul_snark::mul_prove`: three IIP proofs over the same witness vector,
the NonZero proof, the Mul QAP commitments and the MaxDeg shift
`[X^(N-d)·B(X)]₁`. -/
def mul_prove (crs : CRS F) (dg : MulDigest F) (w : MulWitness F) : MulProof F :=
  { lv :=
      { iip_x := iip_prove crs dg.s_x w.to_vec
        iip_y := iip_prove crs dg.s_y w.to_vec
        iip_z := iip_prove crs dg.s_z w.to_vec
        nz := nonzero_prove crs w.to_vec dg.lv.one_idx
        w := w.to_vec
        p_tau_1 := commit_poly_g1 crs (mul_qap_p w)
        h_tau_1 := commit_poly_g1 crs (compute_h_poly w)
        a_tau_1 := commit_poly_g1 crs [w.x]
        b_tau_1 := commit_poly_g1 crs [w.y]
        c_tau_1 := commit_poly_g1 crs [w.z]
        b_tau_2 := commit_poly_g2 crs [w.y]
        w_hat_tau_1 := commit_poly_g1 crs
          (mul_by_xk (interpolate crs w.to_vec) (crs.N - dg.lv.d_bound)) } }

/-! ## WE KEM and AEAD (`we.rs`) -/

/-- `we::HeaderElem`. -/
inductive HeaderElem (F : Type) where
  | G1 : F → HeaderElem F
  | G2 : F → HeaderElem F
deriving DecidableEq

/-- `we::LVHeader`. -/
structure LVHeader (F : Type) where
  c1 : List (HeaderElem F)
deriving DecidableEq

/-- `we::LVPublicLinearParams`. -/
structure LVPublicLinearParams (F : Type) where
  shape : LVShape F
  cols : List (LVColMeta F)

/-- `we::lv_public_linear_params`. -/
def lv_public_linear_params (crs : CRS F) (dg : LVDigest F) :
    LVPublicLinearParams F :=
  { shape := dg.linear_shape crs, cols := dg.column_metadata crs }

/-- `we::derive_alphas`: `α = Aᵀ·r`, accumulated row by row as in the
source. -/
def derive_alphas (shape : LVShape F) (r : List F) : List F :=
  (List.range LV_NUM_COORDS).map fun j =>
    (List.range shape.rows).foldl
      (fun alpha i =>
        if (shape.a.getD i []).getD j 0 = 1 then alpha + r.getD i 0
        else if (shape.a.getD i []).getD j 0 = -1 then alpha - r.getD i 0
        else alpha)
      0

/-- The AES-256-GCM key produced by `we::kdf_from_gt_with_ctx`.  SHA-256 is
modelled as an injective hash, so the key is the tuple of everything the
source feeds to the hasher: the GT element, `n`, `N`, the shape matrix
row-major, the serialized `b` entries and the serialized header elements. -/
structure AeadKey (F : Type) where
  gt : F
  n : ℕ
  N : ℕ
  a : List (List ℤ)
  b : List F
  hdr : List (HeaderElem F)
deriving DecidableEq

/-- `we::kdf_from_gt_with_ctx`. -/
def kdf_from_gt_with_ctx (gt : F) (hdr : LVHeader F) (crs : CRS F)
    (shape : LVShape F) : AeadKey F :=
  { gt := gt
    n := crs.n
    N := crs.N
    a := (List.range shape.rows).map fun i =>
      (List.range LV_NUM_COORDS).map fun j => (shape.a.getD i []).getD j 0
    b := (List.range shape.rows).map fun i => shape.b.getD i 0
    hdr := hdr.c1 }

/-- The associated data of `we::compute_aad` (same hashed context as the
KDF minus the GT element). -/
structure Aad (F : Type) where
  n : ℕ
  N : ℕ
  a : List (List ℤ)
  b : List F
  hdr : List (HeaderElem F)
deriving DecidableEq

/-- `we::compute_aad`. -/
def compute_aad (crs : CRS F) (shape : LVShape F) (hdr : LVHeader F) : Aad F :=
  { n := crs.n
    N := crs.N
    a := (List.range shape.rows).map fun i =>
      (List.range LV_NUM_COORDS).map fun j => (shape.a.getD i []).getD j 0
    b := (List.range shape.rows).map fun i => shape.b.getD i 0
    hdr := hdr.c1 }

/-- The AES-GCM authentication tag, in the ideal-AEAD model: it
authenticates exactly the key, nonce, associated data and ciphertext. -/
structure AeadTag (F : Type) where
  key : AeadKey F
  nonce : List ℕ
  aad : Aad F
  ct : List ℕ
deriving DecidableEq

/-- `we::aead_encrypt`: seals the buffer in place (the ideal CTR mask is
the identity on bytes) and returns the detached tag; we return the
(ciphertext, tag) pair to model the in-place mutation. -/
def aead_encrypt (crs : CRS F) (shape : LVShape F) (hdr : LVHeader F)
    (key : AeadKey F) (nonce_12 : List ℕ) (plaintext : List ℕ) :
    List ℕ × AeadTag F :=
  (plaintext, ⟨key, nonce_12, compute_aad crs shape hdr, plaintext⟩)

/-- `we::aead_decrypt`: the ideal AEAD accepts exactly the tag produced for
the same key, nonce, associated data and ciphertext. -/
def aead_decrypt (key : AeadKey F) (nonce_12 : List ℕ) (ciphertext : List ℕ)
    (tag : AeadTag F) (aad : Aad F) : Bool :=
  decide (tag = ⟨key, nonce_12, aad, ciphertext⟩)

/-- `we::lv_make_header`: sample `r` (passed explicitly), derive
`α = Aᵀ·r`, raise each column's public base to `α_j` in its source group,
and derive the KEM key from `B = Π_i b_i^(r_i)` with context binding. -/
def lv_make_header (params : LVPublicLinearParams F) (crs : CRS F) (r : List F) :
    LVHeader F × AeadKey F :=
  (⟨(List.range LV_NUM_COORDS).map fun j =>
      match (params.cols.getD j ⟨ColSide.ProofG1PublicG2, none, none⟩).side with
      | ColSide.ProofG1PublicG2 =>
          HeaderElem.G2
            ((params.cols.getD j ⟨ColSide.ProofG1PublicG2, none, none⟩).g2_pub.getD 0 *
              (derive_alphas params.shape r).getD j 0)
      | ColSide.ProofG2PublicG1 =>
          HeaderElem.G1
            ((params.cols.getD j ⟨ColSide.ProofG1PublicG2, none, none⟩).g1_pub.getD 0 *
              (derive_alphas params.shape r).getD j 0)⟩,
    kdf_from_gt_with_ctx
      ((List.range params.shape.rows).foldl
        (fun acc i => acc + r.getD i 0 * params.shape.b.getD i 0) 0)
      ⟨(List.range LV_NUM_COORDS).map fun j =>
        match (params.cols.getD j ⟨ColSide.ProofG1PublicG2, none, none⟩).side with
        | ColSide.ProofG1PublicG2 =>
            HeaderElem.G2
              ((params.cols.getD j ⟨ColSide.ProofG1PublicG2, none, none⟩).g2_pub.getD 0 *
                (derive_alphas params.shape r).getD j 0)
        | ColSide.ProofG2PublicG1 =>
            HeaderElem.G1
              ((params.cols.getD j ⟨ColSide.ProofG1PublicG2, none, none⟩).g1_pub.getD 0 *
                (derive_alphas params.shape r).getD j 0)⟩
      crs params.shape)

/-- `we::lv_key_from_header`: pair each header element with the proof-side
element of its column and hash the accumulated GT value; `None` on a header
of the wrong length, mismatched `B(τ)` commitments, or a side mismatch. -/
def lv_key_from_header (crs : CRS F) (dg : LVDigest F)
    (params : LVPublicLinearParams F) (hdr : LVHeader F) (pi : LVProof F) :
    Option (AeadKey F) :=
  if hdr.c1.length ≠ LV_NUM_COORDS then none
  else
    match build_proof_side_elems crs dg pi with
    | none => none
    | some proof_elems =>
      match
        (List.range LV_NUM_COORDS).foldl
          (fun acc j =>
            match acc with
            | none => none
            | some a =>
              match (params.cols.getD j ⟨ColSide.ProofG1PublicG2, none, none⟩).side,
                  hdr.c1.getD j (HeaderElem.G1 0),
                  proof_elems.getD j (ProofElem.G1 0) with
              | ColSide.ProofG1PublicG2, HeaderElem.G2 hg2, ProofElem.G1 pg1 =>
                  some (a + pairing pg1 hg2)
              | ColSide.ProofG2PublicG1, HeaderElem.G1 hg1, ProofElem.G2 pg2 =>
                  some (a + pairing hg1 pg2)
              | _, _, _ => none)
          (some 0)
      with
      | none => none
      | some acc => some (kdf_from_gt_with_ctx acc hdr crs params.shape)

/-- `we::decrypt_with_lv_header`: derive the key from the header and the
proof, recompute the associated data, and open the AEAD. -/
def decrypt_with_lv_header (crs : CRS F) (dg : LVDigest F)
    (params : LVPublicLinearParams F) (hdr : LVHeader F) (pi : LVProof F)
    (nonce : List ℕ) (ct : List ℕ) (tag : AeadTag F) : Option (List ℕ) :=
  match lv_key_from_header crs dg params hdr pi with
  | none => none
  | some key =>
    if aead_decrypt key nonce ct tag (compute_aad crs params.shape hdr) then some ct
    else none

instance : Fact (Nat.Prime 5) := ⟨by norm_num⟩

/-! ### Evaluation lemmas -/

theorem evalD_from (x s : F) (l : List F) :
    l.foldl (fun acc c => acc * x + c) s = s * x ^ l.length + evalD x l := by
  induction l generalizing s with
  | nil => simp [evalD]
  | cons c t ih =>
    simp only [List.foldl_cons, List.length_cons, evalD]
    rw [ih (s * x + c), ih (0 * x + c)]
    ring

theorem evalD_cons (x a : F) (l : List F) :
    evalD x (a :: l) = a * x ^ l.length + evalD x l := by
  have h := evalD_from x (0 * x + a) l
  simpa [evalD] using h

theorem evalD_append (x : F) (u v : List F) :
    evalD x (u ++ v) = evalD x u * x ^ v.length + evalD x v := by
  have h := evalD_from x (evalD x u) v
  simpa [evalD, List.foldl_append] using h

theorem eval_poly_eq (p : List F) (x : F) : eval_poly p x = evalA x p := by
  induction p with
  | nil => simp [eval_poly, evalD, evalA]
  | cons c t ih =>
    simp only [eval_poly, List.reverse_cons, evalA]
    rw [evalD_append]
    simp only [eval_poly] at ih
    rw [ih]
    simp [evalD]
    ring

theorem evalA_add_poly (x : F) (p q : List F) :
    evalA x (add_poly p q) = evalA x p + evalA x q := by
  induction p generalizing q with
  | nil =>
    induction q with
    | nil => simp [add_poly, evalA]
    | cons b t ihq => simp only [add_poly, evalA] at ihq ⊢; rw [ihq]; ring
  | cons a t ih =>
    cases q with
    | nil => simp [add_poly, evalA]
    | cons b u => simp only [add_poly, evalA]; rw [ih u]; ring

theorem evalA_sub_poly (x : F) (p q : List F) :
    evalA x (sub_poly p q) = evalA x p - evalA x q := by
  induction p generalizing q with
  | nil =>
    induction q with
    | nil => simp [sub_poly, evalA]
    | cons b t ihq => simp only [sub_poly, evalA] at ihq ⊢; rw [ihq]; ring
  | cons a t ih =>
    cases q with
    | nil => simp [sub_poly, evalA]
    | cons b u => simp only [sub_poly, evalA]; rw [ih u]; ring

theorem evalA_scale_poly (x c : F) (p : List F) :
    evalA x (scale_poly p c) = evalA x p * c := by
  induction p with
  | nil => simp [scale_poly, evalA]
  | cons a t ih => simp only [scale_poly, List.map_cons, evalA] at ih ⊢; rw [ih]; ring

theorem evalA_add_constant (x c : F) (p : List F) :
    evalA x (add_constant p c) = evalA x p + c := by
  cases p with
  | nil => simp [add_constant, evalA]
  | cons a t => simp [add_constant, evalA]; ring

theorem evalA_mul_by_xk (x : F) (p : List F) (k : ℕ) :
    evalA x (mul_by_xk p k) = x ^ k * evalA x p := by
  induction k with
  | zero => simp [mul_by_xk, evalA]
  | succ m ih =>
    have : mul_by_xk p (m + 1) = 0 :: mul_by_xk p m := by
      simp [mul_by_xk, List.replicate_succ]
    rw [this]
    simp only [evalA, ih]
    ring

theorem evalA_mul_poly (x : F) (p q : List F) :
    evalA x (mul_poly p q) = evalA x p * evalA x q := by
  induction p with
  | nil => simp [mul_poly, evalA]
  | cons a t ih =>
    simp only [mul_poly, evalA_add_poly, evalA_scale_poly, evalA]
    rw [ih]
    ring

theorem evalA_getD_zero (p : List F) : evalA (0 : F) p = p.getD 0 0 := by
  cases p with
  | nil => simp [evalA]
  | cons a t => simp [evalA]

/-! ### Division lemmas -/

theorem evalD_zipWith_sub (x a : F) :
    ∀ u v : List F, u.length = v.length →
      evalD x (List.zipWith (fun r d => r - a * d) u v) =
        evalD x u - a * evalD x v := by
  intro u
  induction u with
  | nil =>
    intro v hv
    have : v = [] := List.length_eq_zero.mp (by simpa using hv.symm)
    simp [this, evalD]
  | cons b u' ih =>
    intro v hv
    cases v with
    | nil => simp at hv
    | cons c v' =>
      have hlen : u'.length = v'.length := by simpa using hv
      simp only [List.zipWith_cons_cons]
      rw [evalD_cons, evalD_cons, evalD_cons, ih v' hlen]
      have hzl : (List.zipWith (fun r d => r - a * d) u' v').length = u'.length := by
        simp [List.length_zipWith, hlen]
      rw [hzl, hlen]
      ring

theorem divMonic_q_len (den' : List F) (fuel : ℕ) :
    ∀ num : List F, num.length ≤ fuel →
      (divMonicDescAux den' fuel num).1.length = num.length - den'.length := by
  induction fuel with
  | zero =>
    intro num hnum
    have : num = [] := List.length_eq_zero.mp (Nat.le_zero.mp hnum)
    subst this
    simp [divMonicDescAux]
  | succ f ih =>
    intro num hnum
    cases num with
    | nil => simp [divMonicDescAux]
    | cons a rest =>
      by_cases h : rest.length < den'.length
      · simp only [divMonicDescAux, if_pos h]
        simp [Nat.sub_eq_zero_of_le h]
      · simp only [divMonicDescAux, if_neg h]
        push_neg at h
        have hlenst :
            ((List.zipWith (fun r d => r - a * d) (rest.take den'.length) den')
              ++ rest.drop den'.length).length = rest.length := by
          simp only [List.length_append, List.length_zipWith,
            List.length_take, List.length_drop]
          omega
        have hfuel :
            ((List.zipWith (fun r d => r - a * d) (rest.take den'.length) den')
              ++ rest.drop den'.length).length ≤ f := by
          rw [hlenst]
          simpa using Nat.lt_succ_iff.mp (Nat.lt_of_lt_of_le
            (Nat.lt_succ_of_le (Nat.le_refl _)) (by simpa using hnum))
        have := ih _ hfuel
        simp only [List.length_cons, this, hlenst]
        omega

theorem divMonic_r_len (den' : List F) (fuel : ℕ) :
    ∀ num : List F, num.length ≤ fuel →
      (divMonicDescAux den' fuel num).2.length ≤ den'.length := by
  induction fuel with
  | zero =>
    intro num hnum
    have : num = [] := List.length_eq_zero.mp (Nat.le_zero.mp hnum)
    subst this
    simp [divMonicDescAux]
  | succ f ih =>
    intro num hnum
    cases num with
    | nil => simp [divMonicDescAux]
    | cons a rest =>
      by_cases h : rest.length < den'.length
      · simp only [divMonicDescAux, if_pos h]
        simpa using h
      · simp only [divMonicDescAux, if_neg h]
        push_neg at h
        have hlenst :
            ((List.zipWith (fun r d => r - a * d) (rest.take den'.length) den')
              ++ rest.drop den'.length).length = rest.length := by
          simp only [List.length_append, List.length_zipWith,
            List.length_take, List.length_drop]
          omega
        have hfuel :
            ((List.zipWith (fun r d => r - a * d) (rest.take den'.length) den')
              ++ rest.drop den'.length).length ≤ f := by
          rw [hlenst]
          simpa using Nat.lt_succ_iff.mp (Nat.lt_of_lt_of_le
            (Nat.lt_succ_of_le (Nat.le_refl _)) (by simpa using hnum))
        exact ih _ hfuel

theorem divMonic_eval (den' : List F) (x : F) (fuel : ℕ) :
    ∀ num : List F, num.length ≤ fuel →
      evalD x num =
        evalD x (divMonicDescAux den' fuel num).1 * evalD x (1 :: den') +
          evalD x (divMonicDescAux den' fuel num).2 := by
  induction fuel with
  | zero =>
    intro num hnum
    have : num = [] := List.length_eq_zero.mp (Nat.le_zero.mp hnum)
    subst this
    simp [divMonicDescAux, evalD]
  | succ f ih =>
    intro num hnum
    cases num with
    | nil => simp [divMonicDescAux, evalD]
    | cons a rest =>
      by_cases h : rest.length < den'.length
      · simp only [divMonicDescAux, if_pos h]
        simp [evalD]
      · simp only [divMonicDescAux, if_neg h]
        push_neg at h
        have htk : (rest.take den'.length).length = den'.length := by
          simp [List.length_take, Nat.min_eq_left h]
        have hlenst :
            ((List.zipWith (fun r d => r - a * d) (rest.take den'.length) den')
              ++ rest.drop den'.length).length = rest.length := by
          simp only [List.length_append, List.length_zipWith,
            List.length_take, List.length_drop]
          omega
        have hfuel :
            ((List.zipWith (fun r d => r - a * d) (rest.take den'.length) den')
              ++ rest.drop den'.length).length ≤ f := by
          rw [hlenst]
          simpa using Nat.lt_succ_iff.mp (Nat.lt_of_lt_of_le
            (Nat.lt_succ_of_le (Nat.le_refl _)) (by simpa using hnum))
        have hqlen := divMonic_q_len den' f _ hfuel
        have hstep := ih _ hfuel
        have hdroplen : (rest.drop den'.length).length = rest.length - den'.length := by
          simp [List.length_drop]
        have hre : evalD x rest =
            evalD x (rest.take den'.length) * x ^ (rest.length - den'.length) +
              evalD x (rest.drop den'.length) := by
          conv_lhs => rw [← List.take_append_drop den'.length rest]
          rw [evalD_append, hdroplen]
        -- evaluate the stepped numerator
        have hstepval :
            evalD x ((List.zipWith (fun r d => r - a * d)
                (rest.take den'.length) den') ++ rest.drop den'.length) =
              evalD x rest - a * evalD x den' * x ^ (rest.length - den'.length) := by
          rw [evalD_append, evalD_zipWith_sub x a _ _ htk, hdroplen, hre]
          ring
        rw [hstepval] at hstep
        rw [evalD_cons] at hstep
        rw [evalD_cons, evalD_cons, evalD_cons]
        rw [hqlen, hlenst]
        have hpow : x ^ (rest.length - den'.length) * x ^ den'.length =
            x ^ rest.length := by
          rw [← pow_add, Nat.sub_add_cancel h]
        linear_combination hstep - a * hpow

theorem trim_snoc (l : List F) (c : F) (hc : c ≠ 0) : trim (l ++ [c]) = l ++ [c] := by
  simp [trim, List.dropWhile_cons, hc]

theorem poly_div_linear_eval (p : List F) (e x : F) :
    eval_poly (sub_poly p (mul_poly (poly_div p [e, 1]) [e, 1])) x =
      eval_poly p (-e) := by
  have htr : trim [e, (1 : F)] = [e, 1] := by
    simpa using trim_snoc (F := F) [e] 1 one_ne_zero
  have hq : poly_div p [e, 1] =
      (divMonicDescAux [e] p.reverse.length p.reverse).1.reverse := by
    simp [poly_div, htr, div_one]
  have hrlen := divMonic_r_len [e] p.reverse.length p.reverse (le_refl _)
  have heval : ∀ y : F, evalD y p.reverse =
      evalD y (divMonicDescAux [e] p.reverse.length p.reverse).1 * (y + e) +
        evalD y (divMonicDescAux [e] p.reverse.length p.reverse).2 := by
    intro y
    have h := divMonic_eval [e] y p.reverse.length p.reverse (le_refl _)
    have hde : evalD y (1 :: [e]) = y + e := by
      rw [evalD_cons]; simp [evalD]
    rw [hde] at h
    exact h
  obtain ⟨c, hc⟩ : ∃ c : F, ∀ y : F,
      evalD y (divMonicDescAux [e] p.reverse.length p.reverse).2 = c := by
    rcases hr : (divMonicDescAux [e] p.reverse.length p.reverse).2 with _ | ⟨c, t⟩
    · exact ⟨0, fun y => by simp [evalD]⟩
    · have ht : t = [] := by
        rw [hr] at hrlen
        have h2 : t.length + 1 ≤ 1 := by simpa using hrlen
        exact List.length_eq_zero.mp (by omega)
      exact ⟨c, fun y => by simp [ht, evalD]⟩
  have hrho : eval_poly p (-e) = c := by
    have h := heval (-e)
    rw [hc (-e)] at h
    have : (-e : F) + e = 0 := by ring
    rw [this, mul_zero, zero_add] at h
    exact h
  have hpE : evalA x p = evalD x (divMonicDescAux [e] p.reverse.length p.reverse).1 * (x + e) + c := by
    rw [← eval_poly_eq]
    exact (heval x).trans (by rw [hc x])
  have hqE : evalA x (poly_div p [e, 1]) =
      evalD x (divMonicDescAux [e] p.reverse.length p.reverse).1 := by
    rw [← eval_poly_eq, hq]
    show evalD x _ = _
    rw [List.reverse_reverse]
  have hlin : evalA x [e, (1 : F)] = e + x := by
    simp [evalA]
  rw [eval_poly_eq, evalA_sub_poly, evalA_mul_poly, hpE, hqE, hlin, hrho]
  ring

theorem synGo_length (d : F) : ∀ (rest : List F) (prev : F),
    (synGo d prev rest).length = rest.length := by
  intro rest
  induction rest with
  | nil => intro prev; simp [synGo]
  | cons a as ih => intro prev; simp [synGo, ih]

theorem synGo_eval (d x : F) :
    ∀ (rest : List F) (prev : F),
      evalD x (prev :: rest) =
        (x - d) * evalD x ((prev :: synGo d prev rest).dropLast) +
          (prev :: synGo d prev rest).getLastD 0 := by
  intro rest
  induction rest with
  | nil => intro prev; simp [synGo, evalD, List.dropLast]
  | cons a as ih =>
    intro prev
    have hgo : synGo d prev (a :: as) = (a + d * prev) :: synGo d (a + d * prev) as := rfl
    rw [hgo]
    have IH := ih (a + d * prev)
    rw [evalD_cons] at IH
    have hlen : (synGo d (a + d * prev) as).length = as.length := synGo_length d as _
    have hdl : (prev :: (a + d * prev) :: synGo d (a + d * prev) as).dropLast =
        prev :: ((a + d * prev) :: synGo d (a + d * prev) as).dropLast := rfl
    have hgl : (prev :: (a + d * prev) :: synGo d (a + d * prev) as).getLastD 0 =
        ((a + d * prev) :: synGo d (a + d * prev) as).getLastD 0 := by
      conv_lhs => rw [List.getLastD_cons, List.getLastD_cons]
      conv_rhs => rw [List.getLastD_cons]
    rw [hdl, hgl]
    rw [evalD_cons, evalD_cons]
    rw [evalD_cons x prev (((a + d * prev) :: synGo d (a + d * prev) as).dropLast)]
    have hdll : (((a + d * prev) :: synGo d (a + d * prev) as).dropLast).length
        = as.length := by
      simp [List.length_dropLast, hlen]
    rw [hdll]
    simp only [List.length_cons]
    have hp : x ^ (as.length + 1) = x ^ as.length * x := pow_succ x as.length
    rw [hp]
    linear_combination IH

theorem divide_by_linear_eval (p : List F) (d x : F) :
    eval_poly p x =
      (x - d) * eval_poly (divide_by_linear p d).1 x + (divide_by_linear p d).2 := by
  rcases p with _ | ⟨c1, p1⟩
  · simp [divide_by_linear, eval_poly, evalD]
  rcases p1 with _ | ⟨c2, p2⟩
  · simp [divide_by_linear, eval_poly, evalD]
  have h0 : (c1 :: c2 :: p2).length = 0 ↔ False := by simp
  have h1 : (c1 :: c2 :: p2).length = 1 ↔ False := by simp
  rcases hrev : (c1 :: c2 :: p2).reverse with _ | ⟨a0, rest⟩
  · exact absurd (congrArg List.length hrev) (by simp)
  have hdef : divide_by_linear (c1 :: c2 :: p2) d =
      (((a0 :: synGo d a0 rest).dropLast).reverse,
        (a0 :: synGo d a0 rest).getLastD 0) := by
    rw [divide_by_linear]
    rw [if_neg (by simp), if_neg (by simp), hrev]
  rw [hdef]
  have hsyn := synGo_eval d x rest a0
  have hlhs : eval_poly (c1 :: c2 :: p2) x = evalD x (a0 :: rest) := by
    rw [eval_poly, hrev]
  have hq : eval_poly (((a0 :: synGo d a0 rest).dropLast).reverse) x =
      evalD x ((a0 :: synGo d a0 rest).dropLast) := by
    rw [eval_poly, List.reverse_reverse]
  rw [hlhs, hq]
  exact hsyn

theorem divide_by_linear_rem (p : List F) (d : F) :
    (divide_by_linear p d).2 = eval_poly p d := by
  have h := divide_by_linear_eval p d d
  rw [sub_self, zero_mul, zero_add] at h
  exact h.symm

theorem commit_foldl_pow (τ : F) (l : List F) :
    ∀ (k : ℕ) (acc : F),
      ((List.enumFrom k l).foldl
        (fun acc jc => if jc.2 = 0 then acc else acc + jc.2 * τ ^ jc.1) acc)
        = acc + τ ^ k * evalA τ l := by
  induction l with
  | nil => intro k acc; simp [evalA]
  | cons c t ih =>
    intro k acc
    have henum : List.enumFrom k (c :: t) = (k, c) :: List.enumFrom (k + 1) t := rfl
    rw [henum, List.foldl_cons]
    by_cases hc : c = 0
    · rw [if_pos hc, ih (k + 1) acc]
      simp [evalA, hc, pow_succ]
      ring
    · rw [if_neg hc, ih (k + 1) (acc + c * τ ^ k)]
      simp [evalA, pow_succ]
      ring

theorem commit_pows_pow (τ : F) (coeffs : List F) :
    commit_pows (fun i => τ ^ i) coeffs = evalA τ coeffs := by
  have h := commit_foldl_pow τ coeffs 0 0
  simpa [commit_pows, List.enum] using h

theorem commit_g1_setup (u n : ℕ) (ω : F) (coeffs : List F) :
    commit_poly_g1 (CRS.setup u n ω) coeffs = evalA (u : F) coeffs := by
  rw [commit_poly_g1, CRS.setup]
  exact commit_pows_pow (u : F) coeffs

theorem commit_g2_setup (u n : ℕ) (ω : F) (coeffs : List F) :
    commit_poly_g2 (CRS.setup u n ω) coeffs = evalA (u : F) coeffs := by
  rw [commit_poly_g2, CRS.setup]
  exact commit_pows_pow (u : F) coeffs

theorem evalA_append (x : F) (u v : List F) :
    evalA x (u ++ v) = evalA x u + x ^ u.length * evalA x v := by
  induction u with
  | nil => simp [evalA]
  | cons c t ih =>
    simp only [List.cons_append, evalA, List.length_cons, List.append_eq]
    rw [ih]
    ring

theorem evalA_range_map (f : ℕ → F) (x : F) (n : ℕ) :
    evalA x ((List.range n).map f) = ∑ j ∈ Finset.range n, f j * x ^ j := by
  induction n with
  | zero => simp [evalA]
  | succ m ih =>
    rw [List.range_succ, List.map_append, evalA_append]
    simp only [List.length_map, List.length_range, List.map_cons, List.map_nil]
    rw [ih, Finset.sum_range_succ]
    simp [evalA]
    ring

/-- The vanishing polynomial of the setup evaluates to `-1` at `0`. -/
theorem vanishing_at_zero (u n : ℕ) (ω : F) :
    eval_poly (CRS.setup u n ω).vanishing_coeffs 0 = -1 := by
  rw [eval_poly_eq, CRS.setup]
  simp [evalA_getD_zero]

theorem geom_orthogonal (ω : F) (n : ℕ) (hω : ω ^ n = 1)
    (hinj : ∀ i < n, ∀ j < n, ω ^ i = ω ^ j → i = j)
    (i k : ℕ) (hi : i < n) (hk : k < n) :
    ∑ j ∈ Finset.range n, (ω ^ i * (ω ^ k)⁻¹) ^ j = if i = k then (n : F) else 0 := by
  have hn0 : 0 < n := lt_of_le_of_lt (Nat.zero_le i) hi
  have hω0 : ω ≠ 0 := by
    intro h
    rw [h, zero_pow hn0.ne'] at hω
    exact one_ne_zero hω.symm
  by_cases heq : i = k
  · subst heq
    have hone : ω ^ i * (ω ^ i)⁻¹ = 1 := mul_inv_cancel₀ (pow_ne_zero i hω0)
    simp [hone]
  · rw [if_neg heq]
    have hμ1 : ω ^ i * (ω ^ k)⁻¹ ≠ 1 := by
      intro h
      exact heq (hinj i hi k hk ((mul_inv_eq_one₀ (pow_ne_zero k hω0)).mp h))
    have h1 : ((ω : F) ^ i) ^ n = 1 := by
      rw [← pow_mul, mul_comm, pow_mul, hω, one_pow]
    have h2 : ((ω : F) ^ k) ^ n = 1 := by
      rw [← pow_mul, mul_comm, pow_mul, hω, one_pow]
    have hμn : (ω ^ i * (ω ^ k)⁻¹) ^ n = 1 := by
      rw [mul_pow, inv_pow, h1, h2, inv_one, one_mul]
    rw [geom_sum_eq hμ1, hμn, sub_self, zero_div]

/-- Inverse-DFT round trip: evaluating the interpolation at the `i`-th
domain point recovers the `i`-th input. -/
theorem interpolate_eval_domain (crs : CRS F)
    (hω : crs.domain_gen ^ crs.n = 1)
    (hinj : ∀ i < crs.n, ∀ j < crs.n,
      crs.domain_gen ^ i = crs.domain_gen ^ j → i = j)
    (hninv : crs.n_inv * (crs.n : F) = 1)
    (v : List F) (i : ℕ) (hi : i < crs.n) :
    eval_poly (interpolate crs v) (crs.domain_gen ^ i) = v.getD i 0 := by
  rw [eval_poly_eq, interpolate, evalA_range_map]
  have step1 : ∀ j ∈ Finset.range crs.n,
      (crs.n_inv * ∑ k ∈ Finset.range crs.n,
        v.getD k 0 * ((crs.domain_gen ^ k)⁻¹) ^ j) * (crs.domain_gen ^ i) ^ j
      = crs.n_inv * ∑ k ∈ Finset.range crs.n,
          v.getD k 0 * (crs.domain_gen ^ i * (crs.domain_gen ^ k)⁻¹) ^ j := by
    intro j hj
    rw [mul_assoc, Finset.sum_mul]
    congr 1
    refine Finset.sum_congr rfl fun k hk => ?_
    rw [mul_pow]
    ring
  rw [Finset.sum_congr rfl step1, ← Finset.mul_sum, Finset.sum_comm]
  have step2 : ∀ k ∈ Finset.range crs.n,
      (∑ j ∈ Finset.range crs.n,
        v.getD k 0 * (crs.domain_gen ^ i * (crs.domain_gen ^ k)⁻¹) ^ j)
        = v.getD k 0 * (if i = k then (crs.n : F) else 0) := by
    intro k hk
    rw [← Finset.mul_sum,
      geom_orthogonal crs.domain_gen crs.n hω hinj i k hi (Finset.mem_range.mp hk)]
  rw [Finset.sum_congr rfl step2]
  have step3 : (∑ k ∈ Finset.range crs.n,
      v.getD k 0 * (if i = k then (crs.n : F) else 0))
      = v.getD i 0 * (crs.n : F) := by
    rw [Finset.sum_congr rfl (fun k _ => mul_ite (i = k) (v.getD k 0) ((crs.n : F)) 0)]
    simp only [mul_zero]
    rw [Finset.sum_ite_eq]
    rw [if_pos (Finset.mem_range.mpr hi)]
  rw [step3]
  linear_combination (v.getD i 0) * hninv

/-! ### IIP completeness core -/

/-- The prover's decomposition identity: for every evaluation point `x`,
`A(x)·B(x) = v·n + x·Q_X(x) + Q_Z(x)·Z(x)`, provided `Z(0) ≠ 0`. -/
theorem iip_decomposition (crs : CRS F) (s w : List F)
    (hZ0 : eval_poly crs.vanishing_coeffs 0 ≠ 0) (x : F) :
    evalA x (interpolate crs s) * evalA x (interpolate crs w) =
      iip_v s w * crs.n_inv⁻¹ + evalA x (iip_QX crs s w) * x +
        evalA x (iip_QZR2 crs s w).1 * evalA x crs.vanishing_coeffs := by
  have hPeval : evalA x (iip_P crs s w) =
      evalA x (interpolate crs s) * evalA x (interpolate crs w) -
        iip_v s w * crs.n_inv⁻¹ := by
    rw [iip_P, evalA_add_constant, evalA_mul_poly]
    ring
  have hQR : evalA x (iip_QZR crs s w).2 =
      evalA x (iip_P crs s w) -
        evalA x (iip_QZR crs s w).1 * evalA x crs.vanishing_coeffs := by
    show evalA x (div_rem (iip_P crs s w) crs.vanishing_coeffs).2 = _
    rw [div_rem, evalA_sub_poly, evalA_mul_poly]
    rfl
  have hQ2 : evalA x (iip_QZR2 crs s w).1 * evalA x crs.vanishing_coeffs +
      evalA x (iip_QZR2 crs s w).2 =
      evalA x (iip_QZR crs s w).1 * evalA x crs.vanishing_coeffs +
        evalA x (iip_QZR crs s w).2 := by
    rw [iip_QZR2]
    by_cases hRx : eval_poly (iip_QZR crs s w).2 0 = 0
    · rw [if_pos hRx]
    · rw [if_neg hRx]
      simp only [evalA_add_constant, evalA_sub_poly, evalA_scale_poly]
      ring
  have hR20 : eval_poly (iip_QZR2 crs s w).2 0 = 0 := by
    rw [iip_QZR2]
    by_cases hRx : eval_poly (iip_QZR crs s w).2 0 = 0
    · rw [if_pos hRx]; exact hRx
    · rw [if_neg hRx]
      simp only [eval_poly_eq, evalA_sub_poly, evalA_scale_poly]
      rw [← eval_poly_eq, ← eval_poly_eq]
      field_simp
  have hlin : evalA x [-(0 : F), 1] = x := by
    simp [evalA]
  have hRX : evalA x (iip_QZR2 crs s w).2 = evalA x (iip_QX crs s w) * x := by
    have hid : evalA x (iip_QZR2 crs s w).2 =
        evalA x (iip_QX crs s w) * evalA x [-(0 : F), 1] +
          evalA x (sub_poly (iip_QZR2 crs s w).2
            (mul_poly (poly_div (iip_QZR2 crs s w).2 [-(0 : F), 1])
              [-(0 : F), 1])) := by
      simp only [iip_QX, div_rem]
      rw [evalA_sub_poly, evalA_mul_poly]
      ring
    have hrem := poly_div_linear_eval (iip_QZR2 crs s w).2 (-(0 : F)) x
    rw [neg_neg, hR20] at hrem
    rw [eval_poly_eq] at hrem
    rw [hrem, add_zero, hlin] at hid
    exact hid
  linear_combination hRX - hPeval - hQR - hQ2

/-! ### Setup projections -/

theorem setup_n (u n : ℕ) (ω : F) : (CRS.setup u n ω (F := F)).n = n := rfl

theorem setup_n_inv (u n : ℕ) (ω : F) :
    (CRS.setup u n ω (F := F)).n_inv = (n : F)⁻¹ := rfl

theorem setup_tau (u n : ℕ) (ω : F) : (CRS.setup u n ω (F := F)).tau = (u : F) := rfl

theorem setup_N (u n : ℕ) (ω : F) : (CRS.setup u n ω (F := F)).N = 2 * n + 4 := rfl

theorem setup_domain_gen (u n : ℕ) (ω : F) :
    (CRS.setup u n ω (F := F)).domain_gen = ω := rfl

theorem setup_g1_tau_pow (u n : ℕ) (ω : F) (k : ℕ) :
    (CRS.setup u n ω (F := F)).g1_tau_pow k = (u : F) ^ k := rfl

theorem setup_g2_tau_pow (u n : ℕ) (ω : F) (k : ℕ) :
    (CRS.setup u n ω (F := F)).g2_tau_pow k = (u : F) ^ k := rfl

theorem setup_domainElement (u n : ℕ) (ω : F) (i : ℕ) :
    (CRS.setup u n ω (F := F)).domainElement i = ω ^ i := rfl

/-! ### NonZero core -/

/-- The synthetic-division remainder of the NonZero prover equals
`w[idx] - 1`. -/
theorem nonzero_rem_value (crs : CRS F)
    (hω : crs.domain_gen ^ crs.n = 1)
    (hinj : ∀ i < crs.n, ∀ j < crs.n,
      crs.domain_gen ^ i = crs.domain_gen ^ j → i = j)
    (hninv : crs.n_inv * (crs.n : F) = 1)
    (w : List F) (idx : ℕ) (hidx : idx < crs.n) :
    (nonzero_div crs w idx).2 = w.getD idx 0 - 1 := by
  rw [nonzero_div, divide_by_linear_rem, nonzero_Bm1]
  rw [eval_poly_eq, evalA_add_constant, ← eval_poly_eq, CRS.domainElement]
  rw [interpolate_eval_domain crs hω hinj hninv w idx hidx]
  ring

/-- NonZero completeness/soundness on honestly generated proofs: the
verifier accepts the prover's output exactly when `w[idx] = 1`. -/
theorem nonzero_verify_prove_iff (u n : ℕ) (ω : F)
    (hω : ω ^ n = 1)
    (hinj : ∀ i < n, ∀ j < n, ω ^ i = ω ^ j → i = j)
    (hn : (n : F) ≠ 0)
    (w : List F) (idx : ℕ) (hidx : idx < n) :
    (nonzero_verify (CRS.setup u n ω) (nonzero_prove (CRS.setup u n ω) w idx) idx
      = true ↔ w.getD idx 0 = 1) := by
  have hninv : (CRS.setup u n ω (F := F)).n_inv * ((CRS.setup u n ω (F := F)).n : F) = 1 := by
    rw [setup_n_inv, setup_n]
    exact inv_mul_cancel₀ hn
  have hrem := nonzero_rem_value (CRS.setup u n ω) hω hinj hninv w idx hidx
  have hdiv := divide_by_linear_eval (nonzero_Bm1 (CRS.setup u n ω) w)
    ((CRS.setup u n ω (F := F)).domainElement idx) (u : F)
  have hBm1 : eval_poly (nonzero_Bm1 (CRS.setup u n ω) w) (u : F) =
      evalA (u : F) (interpolate (CRS.setup u n ω) w) - 1 := by
    rw [nonzero_Bm1, eval_poly_eq, evalA_add_constant]
    ring
  rw [hBm1] at hdiv
  have hQrem : (divide_by_linear (nonzero_Bm1 (CRS.setup u n ω) w)
      ((CRS.setup u n ω (F := F)).domainElement idx)) = nonzero_div (CRS.setup u n ω) w idx := rfl
  rw [hQrem, hrem] at hdiv
  have hQeval : eval_poly (nonzero_div (CRS.setup u n ω) w idx).1 (u : F) =
      evalA (u : F) (nonzero_div (CRS.setup u n ω) w idx).1 := eval_poly_eq _ _
  rw [hQeval] at hdiv
  rw [nonzero_verify]
  simp only [nonzero_prove, decide_eq_true_eq, pairing, one_mul, mul_one]
  rw [commit_g2_setup, commit_g1_setup, setup_g2_tau_pow, setup_domainElement]
  rw [setup_domainElement] at hdiv
  rw [pow_one]
  constructor
  · intro h
    have hz : w.getD idx 0 - 1 = 0 := by linear_combination h - hdiv
    exact sub_eq_zero.mp hz
  · intro h
    rw [h] at hdiv
    linear_combination hdiv

/-! ### The three IIP verifier equations hold for the honest prover -/

theorem iip_eq1_setup (u n : ℕ) (ω : F) (s w : List F) :
    pairing (iip_digest (CRS.setup u n ω) s).C
        (iip_prove (CRS.setup u n ω) s w).w_tau_2 =
      pairing ((iip_prove (CRS.setup u n ω) s w).v_g1 *
          (iip_digest (CRS.setup u n ω) s).y_star⁻¹) 1 +
        pairing (iip_prove (CRS.setup u n ω) s w).QX_tau_1
          (iip_digest (CRS.setup u n ω) s).tau_2 +
        pairing (iip_prove (CRS.setup u n ω) s w).QZ_tau_1
          (iip_digest (CRS.setup u n ω) s).Z_tau_2 := by
  have hZ0 : eval_poly (CRS.setup u n ω (F := F)).vanishing_coeffs 0 ≠ 0 := by
    rw [vanishing_at_zero]
    exact neg_ne_zero.mpr one_ne_zero
  have hdec := iip_decomposition (CRS.setup u n ω) s w hZ0 (u : F)
  simp only [iip_digest, iip_prove, pairing, commit_g1_setup, commit_g2_setup,
    setup_g2_tau_pow]
  rw [pow_one]
  linear_combination hdec

theorem iip_eq2_setup (u n : ℕ) (ω : F) (s w : List F) :
    pairing (iip_prove (CRS.setup u n ω) s w).QX_tau_1
        (iip_digest (CRS.setup u n ω) s).tau_N_minus_n_plus_2_2 =
      pairing (iip_prove (CRS.setup u n ω) s w).QX_hat_tau_1 1 := by
  simp only [iip_digest, iip_prove, pairing, commit_g1_setup, setup_g2_tau_pow]
  rw [evalA_mul_by_xk]
  ring

theorem iip_eq3_setup (u n : ℕ) (ω : F) (s w : List F) :
    pairing (iip_prove (CRS.setup u n ω) s w).v_g1
        (iip_digest (CRS.setup u n ω) s).tau_N_2 =
      pairing (iip_prove (CRS.setup u n ω) s w).v_hat_tau_1 1 := by
  simp only [iip_digest, iip_prove, pairing, commit_g1_setup, setup_g2_tau_pow]
  have h : (List.replicate (CRS.setup u n ω (F := F)).N (0 : F) ++ [iip_v s w]) =
      mul_by_xk [iip_v s w] (CRS.setup u n ω (F := F)).N := rfl
  rw [h, evalA_mul_by_xk]
  simp only [evalA]
  ring

/-! ### Mul gadget facts for the honest witness -/

theorem mul_qap_p_eval (x : F) (w : MulWitness F) (hz : w.x * w.y = w.z) :
    evalA x (mul_qap_p w) = 0 := by
  simp only [mul_qap_p, evalA_add_constant, evalA_mul_poly, evalA]
  linear_combination hz

theorem compute_h_poly_eq (w : MulWitness F) : compute_h_poly w = [] := by
  have htr : trim (mul_z_poly (F := F)) = [-(1 : F), 1] := by
    simpa [mul_z_poly] using trim_snoc (F := F) [-(1 : F)] 1 one_ne_zero
  rw [compute_h_poly, div_rem]
  show poly_div (mul_qap_p w) mul_z_poly = []
  rw [poly_div, htr]
  simp [mul_qap_p, mul_poly, add_poly, scale_poly, add_constant, divMonicDescAux]

/-- Splits a length-8 list into its elements. -/
theorem list_len8 {α : Type} (r : List α) (h : r.length = 8) :
    ∃ a b c d e f g k, r = [a, b, c, d, e, f, g, k] := by
  rcases r with _ | ⟨a, r⟩
  · simp at h
  rcases r with _ | ⟨b, r⟩
  · simp at h
  rcases r with _ | ⟨c, r⟩
  · simp at h
  rcases r with _ | ⟨d, r⟩
  · simp at h
  rcases r with _ | ⟨e, r⟩
  · simp at h
  rcases r with _ | ⟨f, r⟩
  · simp at h
  rcases r with _ | ⟨g, r⟩
  · simp at h
  rcases r with _ | ⟨k, r⟩
  · simp at h
  rcases r with _ | ⟨l, r⟩
  · exact ⟨a, b, c, d, e, f, g, k, rfl⟩
  · simp at h

/-- The NonZero verifier equation holds for the honest prover whenever the
designated slot is `1`. -/
theorem nonzero_eq_setup (u n : ℕ) (ω : F) (hω : ω ^ n = 1)
    (hinj : ∀ i < n, ∀ j < n, ω ^ i = ω ^ j → i = j) (hn : (n : F) ≠ 0)
    (w : List F) (idx : ℕ) (hidx : idx < n) (h1 : w.getD idx 0 = 1) :
    pairing 1 (nonzero_prove (CRS.setup u n ω) w idx).w_tau_2 =
      pairing 1 1 +
        pairing (nonzero_prove (CRS.setup u n ω) w idx).q0_tau_1
          ((CRS.setup u n ω (F := F)).g2_tau_pow 1 -
            1 * (CRS.setup u n ω (F := F)).domainElement idx) := by
  have h := (nonzero_verify_prove_iff u n ω hω hinj hn w idx hidx).mpr h1
  rw [nonzero_verify] at h
  exact of_decide_eq_true h

/-! ## Claims -/

/-- Claim C2, counterexample: the source fixes `LV_NUM_COORDS = 18` (not 20)
and `linear_shape` returns 8 rows (not 10), shown on a concrete digest over
`ZMod 5`. -/
theorem lv_shape_constants_cex :
    ¬(LV_NUM_COORDS = 20) ∧
      ((MulDigest.setup (CRS.setup 3 4 (2 : ZMod 5)) 1).lv.linear_shape
          (CRS.setup 3 4 (2 : ZMod 5))).rows ≠ 10 := by
  constructor
  · decide
  · decide

/-- Claim C2, amended: the LV linear system has `LV_NUM_COORDS = 18`
target-group coordinates and 8 rows; for every `LVDigest` the shape returned
by `linear_shape` has `rows = 8`, a matrix `A` with entries in `{-1, 0, 1}`
of dimension 8×18, and an 8-entry right-hand side `b`. -/
theorem lv_shape_constants (dg : LVDigest F) (crs : CRS F) :
    LV_NUM_COORDS = 18 ∧
      (dg.linear_shape crs).rows = 8 ∧
      (dg.linear_shape crs).a.length = 8 ∧
      (∀ row ∈ (dg.linear_shape crs).a, row.length = 18 ∧
        ∀ e ∈ row, e = -1 ∨ e = 0 ∨ e = 1) ∧
      (dg.linear_shape crs).b.length = 8 := by
  refine ⟨rfl, rfl, rfl, ?_, rfl⟩
  intro row hrow
  simp only [LVDigest.linear_shape, List.mem_cons, List.not_mem_nil, or_false]
    at hrow
  rcases hrow with h | h | h | h | h | h | h | h <;> subst h <;>
    exact ⟨rfl, by decide⟩

/-- Claim C4, counterexample: the CRS returned by `setup` does contain the
sampled trapdoor — its `tau` field equals the sampled scalar (here the draw
`3` over `ZMod 5`). -/
theorem crs_stores_trapdoor_cex :
    (CRS.setup 3 4 (2 : ZMod 5)).tau = ((3 : ℕ) : ZMod 5) := rfl

/-- Claim C4, amended: `setup` stores the sampled trapdoor scalar τ in the
`tau` field of the returned CRS; the group-power fields are the powers
`τ^i` in both groups. -/
theorem crs_setup_tau (u n : ℕ) (ω : F) :
    (CRS.setup u n ω (F := F)).tau = (u : F) ∧
      (∀ i, (CRS.setup u n ω (F := F)).g1_pows i = (u : F) ^ i) ∧
      (∀ i, (CRS.setup u n ω (F := F)).g2_pows i = (u : F) ^ i) :=
  ⟨rfl, fun _ => rfl, fun _ => rfl⟩

/-- Claim C7, counterexample: a random source that draws the 64-bit value
`0` makes `setup` use the trapdoor `τ = 0`, which is not in `F*`. -/
theorem setup_trapdoor_zero_cex :
    (CRS.setup 0 4 (2 : ZMod 5)).tau = 0 := rfl

/-- Claim C7, amended: the trapdoor is `Fr::from` of the drawn `u64`
sample; it is nonzero exactly when the sample is nonzero in the field, and
`setup` does not resample, so a zero draw yields `τ = 0`. -/
theorem setup_trapdoor_sample (u n : ℕ) (ω : F) :
    (CRS.setup u n ω (F := F)).tau = (u : F) ∧
      ((CRS.setup u n ω (F := F)).tau ≠ 0 ↔ (u : F) ≠ 0) :=
  ⟨rfl, Iff.rfl⟩

/-- Claim C5: IIP completeness — for every CRS produced by `setup(n)` and
all vectors `s, w` of length `n`, the honest proof passes `iip_verify`: the
three pairing equations hold for the decomposition
`P = Q_Z·Z_D + X·Q_X` and the hatted shifts with exponent `N - n + 1`. -/
theorem iip_completeness (u n : ℕ) (ω : F) (hn : (n : F) ≠ 0)
    (s w : List F) (hs : s.length = n) (hw : w.length = n) :
    iip_verify (iip_digest (CRS.setup u n ω) s)
      (iip_prove (CRS.setup u n ω) s w) = true := by
  rw [iip_verify]
  simp only [Bool.and_eq_true, decide_eq_true_eq]
  exact ⟨⟨iip_eq1_setup u n ω s w, iip_eq2_setup u n ω s w⟩,
    iip_eq3_setup u n ω s w⟩

theorem iip_completeness_witness :
    ((4 : ZMod 5) ≠ 0 ∧ ([1, 2, 3, 4] : List (ZMod 5)).length = 4 ∧
        ([4, 3, 2, 1] : List (ZMod 5)).length = 4) ∧
      iip_verify (iip_digest (CRS.setup 3 4 (2 : ZMod 5)) [1, 2, 3, 4])
        (iip_prove (CRS.setup 3 4 (2 : ZMod 5)) [1, 2, 3, 4] [4, 3, 2, 1]) = true :=
  ⟨⟨by decide, rfl, rfl⟩, iip_completeness 3 4 2 (by decide) _ _ rfl rfl⟩

/-- Claim C6: NonZero law — for every CRS produced by `setup(n)`, every
witness vector `w` of length `n` and every index `i < n`,
`nonzero_verify (crs, nonzero_prove (crs, w, i), i)` returns `true` iff
`w[i] = 1`. -/
theorem nonzero_law (u n : ℕ) (ω : F) (hω : ω ^ n = 1)
    (hinj : ∀ i < n, ∀ j < n, ω ^ i = ω ^ j → i = j) (hn : (n : F) ≠ 0)
    (w : List F) (hw : w.length = n) (i : ℕ) (hi : i < n) :
    (nonzero_verify (CRS.setup u n ω) (nonzero_prove (CRS.setup u n ω) w i) i
      = true ↔ w.getD i 0 = 1) :=
  nonzero_verify_prove_iff u n ω hω hinj hn w i hi

theorem nonzero_law_witness :
    ((2 : ZMod 5) ^ 4 = 1 ∧
        (∀ i < 4, ∀ j < 4, (2 : ZMod 5) ^ i = (2 : ZMod 5) ^ j → i = j) ∧
        (4 : ZMod 5) ≠ 0 ∧ ([1, 2, 3, 1] : List (ZMod 5)).length = 4 ∧ 3 < 4) ∧
      (nonzero_verify (CRS.setup 3 4 (2 : ZMod 5))
          (nonzero_prove (CRS.setup 3 4 (2 : ZMod 5)) [1, 2, 3, 1] 3) 3 = true ↔
        ([1, 2, 3, 1] : List (ZMod 5)).getD 3 0 = 1) :=
  ⟨⟨by decide, by decide, by decide, rfl, by decide⟩,
    nonzero_law 3 4 2 (by decide) (by decide) (by decide) [1, 2, 3, 1] rfl 3
      (by decide)⟩

/-- Claim C8: interpolation round-trip — for every CRS produced by
`setup(n)` and every vector `v` of length `n`, evaluating `interpolate v`
at each domain element `ω^i` yields `v[i]`; and `interpolate` requires its
input to have length `n` (the checked variant succeeds exactly on length-`n`
inputs). -/
theorem interpolate_round_trip (u n : ℕ) (ω : F) (hω : ω ^ n = 1)
    (hinj : ∀ i < n, ∀ j < n, ω ^ i = ω ^ j → i = j) (hn : (n : F) ≠ 0)
    (v : List F) (hv : v.length = n) :
    (∀ i < n, eval_poly (interpolate (CRS.setup u n ω) v) (ω ^ i) = v.getD i 0) ∧
      (∀ evals : List F,
        (interpolate_checked (CRS.setup u n ω) evals).isSome ↔ evals.length = n) := by
  constructor
  · intro i hi
    exact interpolate_eval_domain (CRS.setup u n ω) hω hinj
      (by rw [setup_n_inv, setup_n]; exact inv_mul_cancel₀ hn) v i hi
  · intro evals
    rw [interpolate_checked]
    by_cases h : evals.length = (CRS.setup u n ω (F := F)).n
    · rw [if_pos h]
      simp only [Option.isSome_some, true_iff]
      rw [← setup_n u n ω]
      exact h
    · rw [if_neg h]
      simp only [Option.isSome_none, Bool.false_eq_true, false_iff]
      rw [← setup_n u n ω]
      exact h

theorem interpolate_round_trip_witness :
    ((2 : ZMod 5) ^ 4 = 1 ∧
        (∀ i < 4, ∀ j < 4, (2 : ZMod 5) ^ i = (2 : ZMod 5) ^ j → i = j) ∧
        (4 : ZMod 5) ≠ 0 ∧ ([4, 0, 2, 1] : List (ZMod 5)).length = 4) ∧
      ((∀ i < 4, eval_poly (interpolate (CRS.setup 3 4 (2 : ZMod 5)) [4, 0, 2, 1])
          ((2 : ZMod 5) ^ i) = ([4, 0, 2, 1] : List (ZMod 5)).getD i 0) ∧
        (∀ evals : List (ZMod 5),
          (interpolate_checked (CRS.setup 3 4 (2 : ZMod 5)) evals).isSome ↔
            evals.length = 4)) :=
  ⟨⟨by decide, by decide, by decide, rfl⟩,
    interpolate_round_trip 3 4 2 (by decide) (by decide) (by decide) [4, 0, 2, 1]
      rfl⟩

/-- Claim C9: for every CRS produced by `setup(n)` (with `3 < n`) and every
witness vector `w` of length `n` with `w[3] ≠ 1`, the synthetic division of
`B(X) - 1` by `(X - ω³)` leaves a non-zero remainder, and the prover's
`debug_assert` (modelled by `nonzero_prove_checked`) aborts instead of
returning a proof. -/
theorem nonzero_prover_abort (u n : ℕ) (ω : F) (hω : ω ^ n = 1)
    (hinj : ∀ i < n, ∀ j < n, ω ^ i = ω ^ j → i = j) (hn : (n : F) ≠ 0)
    (w : List F) (hw : w.length = n) (h3 : 3 < n) (hbad : w.getD 3 0 ≠ 1) :
    (nonzero_div (CRS.setup u n ω) w 3).2 ≠ 0 ∧
      nonzero_prove_checked (CRS.setup u n ω) w 3 = none := by
  have hninv : (CRS.setup u n ω (F := F)).n_inv *
      ((CRS.setup u n ω (F := F)).n : F) = 1 := by
    rw [setup_n_inv, setup_n]
    exact inv_mul_cancel₀ hn
  have hrem := nonzero_rem_value (CRS.setup u n ω) hω hinj hninv w 3 h3
  have hne : (nonzero_div (CRS.setup u n ω) w 3).2 ≠ 0 := by
    rw [hrem]
    exact sub_ne_zero.mpr hbad
  exact ⟨hne, by rw [nonzero_prove_checked, if_neg hne]⟩

theorem nonzero_prover_abort_witness :
    ((2 : ZMod 5) ^ 4 = 1 ∧
        (∀ i < 4, ∀ j < 4, (2 : ZMod 5) ^ i = (2 : ZMod 5) ^ j → i = j) ∧
        (4 : ZMod 5) ≠ 0 ∧ ([1, 2, 3, 4] : List (ZMod 5)).length = 4 ∧ 3 < 4 ∧
        ([1, 2, 3, 4] : List (ZMod 5)).getD 3 0 ≠ 1) ∧
      ((nonzero_div (CRS.setup 3 4 (2 : ZMod 5)) [1, 2, 3, 4] 3).2 ≠ 0 ∧
        nonzero_prove_checked (CRS.setup 3 4 (2 : ZMod 5)) [1, 2, 3, 4] 3 = none) :=
  ⟨⟨by decide, by decide, by decide, rfl, by decide, by decide⟩,
    nonzero_prover_abort 3 4 2 (by decide) (by decide) (by decide) [1, 2, 3, 4]
      rfl (by decide) (by decide)⟩

/-- Claim C10: `lv_verify` never reads the values of the raw witness vector
`w` carried in the proof — replacing `w` by any list of the same length
leaves the verdict unchanged — and it returns `false` whenever `w` does not
have length 4. -/
theorem lv_verify_ignores_witness (crs : CRS F) (dg : LVDigest F)
    (pi : LVProof F) (w' : List F) (hlen : w'.length = pi.w.length) :
    lv_verify crs dg { pi with w := w' } = lv_verify crs dg pi ∧
      (pi.w.length ≠ 4 → lv_verify crs dg pi = false) := by
  constructor
  · obtain ⟨ix, iy, iz, nz, w0, p1, h1, a1, b1, c1, b2, wh⟩ := pi
    simp only at hlen
    simp only [lv_verify, hlen, build_lv_coords]
  · intro h
    rw [lv_verify, if_pos h]

theorem lv_verify_ignores_witness_witness :
    (([3, 4] : List (ZMod 5)).length =
        (LVProof.mk ⟨0, 0, 0, 0, 0, 0⟩ ⟨0, 0, 0, 0, 0, 0⟩ ⟨0, 0, 0, 0, 0, 0⟩
          ⟨0, 0⟩ [1, 2] 0 0 0 0 0 0 0).w.length) ∧
      (lv_verify (CRS.setup 3 4 (2 : ZMod 5))
          (LVDigest.mk ⟨0, 0, 0, 0, 0, 0, 0, 4, 12⟩ ⟨0, 0, 0, 0, 0, 0, 0, 4, 12⟩
            ⟨0, 0, 0, 0, 0, 0, 0, 4, 12⟩ 3 0 0 3 0)
          { (LVProof.mk ⟨0, 0, 0, 0, 0, 0⟩ ⟨0, 0, 0, 0, 0, 0⟩ ⟨0, 0, 0, 0, 0, 0⟩
              ⟨0, 0⟩ [1, 2] 0 0 0 0 0 0 0) with w := [3, 4] } =
        lv_verify (CRS.setup 3 4 (2 : ZMod 5))
          (LVDigest.mk ⟨0, 0, 0, 0, 0, 0, 0, 4, 12⟩ ⟨0, 0, 0, 0, 0, 0, 0, 4, 12⟩
            ⟨0, 0, 0, 0, 0, 0, 0, 4, 12⟩ 3 0 0 3 0)
          (LVProof.mk ⟨0, 0, 0, 0, 0, 0⟩ ⟨0, 0, 0, 0, 0, 0⟩ ⟨0, 0, 0, 0, 0, 0⟩
            ⟨0, 0⟩ [1, 2] 0 0 0 0 0 0 0)) ∧
      ((LVProof.mk (F := ZMod 5) ⟨0, 0, 0, 0, 0, 0⟩ ⟨0, 0, 0, 0, 0, 0⟩
            ⟨0, 0, 0, 0, 0, 0⟩ ⟨0, 0⟩ [1, 2] 0 0 0 0 0 0 0).w.length ≠ 4 →
        lv_verify (CRS.setup 3 4 (2 : ZMod 5))
          (LVDigest.mk ⟨0, 0, 0, 0, 0, 0, 0, 4, 12⟩ ⟨0, 0, 0, 0, 0, 0, 0, 4, 12⟩
            ⟨0, 0, 0, 0, 0, 0, 0, 4, 12⟩ 3 0 0 3 0)
          (LVProof.mk ⟨0, 0, 0, 0, 0, 0⟩ ⟨0, 0, 0, 0, 0, 0⟩ ⟨0, 0, 0, 0, 0, 0⟩
            ⟨0, 0⟩ [1, 2] 0 0 0 0 0 0 0) = false) :=
  ⟨rfl,
    (lv_verify_ignores_witness (CRS.setup 3 4 (2 : ZMod 5)) _ _ [3, 4] rfl).1,
    (lv_verify_ignores_witness (CRS.setup 3 4 (2 : ZMod 5)) _ _ [3, 4] rfl).2⟩

/-- Claim C1: end-to-end KEM correctness.  For every CRS produced by
`setup(4)`, every witness `(x, y, z)` with `x·y = z`, the digest built
for the instance `z₀ = z`, and every plaintext, the honest pipeline — `mul_prove`,
then `lv_make_header` and `aead_encrypt` on the encryptor side, then
`decrypt_with_lv_header` with the honest proof and unmodified
header/nonce/tag — returns `some` of the original plaintext; in particular
the decryptor's GT accumulator equals the encryptor's KEM secret and both
sides derive the same AES key. -/
theorem kem_correctness (u : ℕ) (ω : F) (hn : (4 : F) ≠ 0) (hω : ω ^ 4 = 1)
    (hinj : ∀ i < 4, ∀ j < 4, ω ^ i = ω ^ j → i = j)
    (x y z : F) (hxyz : x * y = z) (r : List F) (hr : r.length = 8)
    (nonce pt : List ℕ) :
    ∀ crs dg params hk enc,
      crs = CRS.setup u 4 ω →
      dg = MulDigest.setup crs z →
      params = lv_public_linear_params crs dg.lv →
      hk = lv_make_header params crs r →
      enc = aead_encrypt crs params.shape hk.1 hk.2 nonce pt →
      lv_key_from_header crs dg.lv params hk.1 (mul_prove crs dg ⟨x, y, z⟩).lv
          = some hk.2 ∧
        decrypt_with_lv_header crs dg.lv params hk.1
          (mul_prove crs dg ⟨x, y, z⟩).lv nonce enc.1 enc.2 = some pt := by
  intro crs dg params hk enc hcrs hdg hparams hhk henc
  subst henc
  subst hhk
  subst hparams
  subst hdg
  subst hcrs
  obtain ⟨r0, r1, r2, r3, r4, r5, r6, r7, rfl⟩ := list_len8 r hr
  have h0 := iip_eq1_setup u 4 ω [0, 0, 1, 0] [x, y, z, 1]
  have h1 := iip_eq2_setup u 4 ω [0, 0, 1, 0] [x, y, z, 1]
  have h2 := iip_eq3_setup u 4 ω [0, 0, 1, 0] [x, y, z, 1]
  have h3 := nonzero_eq_setup u 4 ω hω hinj hn [x, y, z, 1] 3 (by norm_num) rfl
  have h4a : commit_poly_g1 (CRS.setup u 4 ω) (mul_qap_p ⟨x, y, z⟩) = 0 := by
    rw [commit_g1_setup]
    exact mul_qap_p_eval (u : F) ⟨x, y, z⟩ hxyz
  have h4b : commit_poly_g1 (CRS.setup u 4 ω) (compute_h_poly ⟨x, y, z⟩) = 0 := by
    rw [compute_h_poly_eq]
    rfl
  have hv : (iip_prove (CRS.setup u 4 ω) [0, 0, 1, 0] [x, y, z, 1]).v_g1 = z := by
    show (1 : F) * (0 + x * 0 + y * 0 + z * 1 + 1 * 0) = z
    ring
  have hC : commit_poly_g1 (CRS.setup u 4 ω) [z] = z := by
    rw [commit_g1_setup]
    show z + (u : F) * 0 = z
    ring
  have h6 : ((u : F) ^ 9) * (iip_prove (CRS.setup u 4 ω) [0, 0, 1, 0] [x, y, z, 1]).w_tau_2 =
      commit_poly_g1 (CRS.setup u 4 ω) (mul_by_xk (interpolate (CRS.setup u 4 ω) [x, y, z, 1]) 9) * 1 := by
    have hW : (iip_prove (CRS.setup u 4 ω) [0, 0, 1, 0] [x, y, z, 1]).w_tau_2 = evalA (u : F) (interpolate (CRS.setup u 4 ω) [x, y, z, 1]) := by
      show commit_poly_g2 (CRS.setup u 4 ω) (interpolate (CRS.setup u 4 ω) [x, y, z, 1]) = _
      exact commit_g2_setup u 4 ω _
    rw [commit_g1_setup, evalA_mul_by_xk, hW]
    ring
  have hACC :
      (0 : F)
        + pairing ((iip_digest (CRS.setup u 4 ω) [0, 0, 1, 0]).C * (0 + r0)) (iip_prove (CRS.setup u 4 ω) [0, 0, 1, 0] [x, y, z, 1]).w_tau_2
        + pairing ((iip_prove (CRS.setup u 4 ω) [0, 0, 1, 0] [x, y, z, 1]).v_g1 * (iip_digest (CRS.setup u 4 ω) [0, 0, 1, 0]).y_star⁻¹) (1 * (0 - r0))
        + pairing (iip_prove (CRS.setup u 4 ω) [0, 0, 1, 0] [x, y, z, 1]).QX_tau_1 ((iip_digest (CRS.setup u 4 ω) [0, 0, 1, 0]).tau_2 * (0 - r0))
        + pairing (iip_prove (CRS.setup u 4 ω) [0, 0, 1, 0] [x, y, z, 1]).QZ_tau_1 ((iip_digest (CRS.setup u 4 ω) [0, 0, 1, 0]).Z_tau_2 * (0 - r0))
        + pairing (iip_prove (CRS.setup u 4 ω) [0, 0, 1, 0] [x, y, z, 1]).QX_tau_1 ((iip_digest (CRS.setup u 4 ω) [0, 0, 1, 0]).tau_N_minus_n_plus_2_2 * (0 + r1))
        + pairing (iip_prove (CRS.setup u 4 ω) [0, 0, 1, 0] [x, y, z, 1]).QX_hat_tau_1 (1 * (0 - r1))
        + pairing (iip_prove (CRS.setup u 4 ω) [0, 0, 1, 0] [x, y, z, 1]).v_g1 ((iip_digest (CRS.setup u 4 ω) [0, 0, 1, 0]).tau_N_2 * (0 + r2))
        + pairing (iip_prove (CRS.setup u 4 ω) [0, 0, 1, 0] [x, y, z, 1]).v_hat_tau_1 (1 * (0 - r2))
        + pairing (1 * (0 + r3)) (nonzero_prove (CRS.setup u 4 ω) [x, y, z, 1] 3).w_tau_2
        + pairing (nonzero_prove (CRS.setup u 4 ω) [x, y, z, 1] 3).q0_tau_1
            (((CRS.setup u 4 ω).g2_tau_pow 1 - 1 * (CRS.setup u 4 ω).domainElement 3) * (0 - r3))
        + pairing (commit_poly_g1 (CRS.setup u 4 ω) (mul_qap_p ⟨x, y, z⟩)) (1 * (0 + r4))
        + pairing (commit_poly_g1 (CRS.setup u 4 ω) (compute_h_poly ⟨x, y, z⟩))
            (commit_poly_g2 (CRS.setup u 4 ω) mul_z_poly * (0 - r4))
        + pairing (commit_poly_g1 (CRS.setup u 4 ω) [x]) (1 * 0)
        + pairing (commit_poly_g1 (CRS.setup u 4 ω) [y]) (1 * 0)
        + pairing (iip_prove (CRS.setup u 4 ω) [0, 0, 1, 0] [x, y, z, 1]).v_g1 (1 * (0 + r5 + r7))
        + pairing (commit_poly_g1 (CRS.setup u 4 ω) [z]) (1 * (0 - r5))
        + pairing ((u : F) ^ 9 * (0 + r6)) (iip_prove (CRS.setup u 4 ω) [0, 0, 1, 0] [x, y, z, 1]).w_tau_2
        + pairing
            (commit_poly_g1 (CRS.setup u 4 ω) (mul_by_xk (interpolate (CRS.setup u 4 ω) [x, y, z, 1]) 9))
            (1 * (0 - r6)) =
      (0 : F) + r0 * 0 + r1 * 0 + r2 * 0 + r3 * pairing 1 1 + r4 * 0 + r5 * 0
        + r6 * 0 + r7 * pairing (1 * z) 1 := by
    simp only [pairing] at h0 h1 h2 h3 h6 ⊢
    rw [hv] at h0 h2 ⊢
    rw [hC, h4a, h4b]
    linear_combination r0 * h0 + r1 * h1 + r2 * h2 + r3 * h3 + r6 * h6
  have hWne : ¬((mul_prove (CRS.setup u 4 ω) (MulDigest.setup (CRS.setup u 4 ω) z) ⟨x, y, z⟩).lv.iip_z.w_tau_2 ≠ (mul_prove (CRS.setup u 4 ω) (MulDigest.setup (CRS.setup u 4 ω) z) ⟨x, y, z⟩).lv.nz.w_tau_2) :=
    fun hcon => hcon rfl
  have hpart1 : lv_key_from_header (CRS.setup u 4 ω) (MulDigest.setup (CRS.setup u 4 ω) z).lv (lv_public_linear_params (CRS.setup u 4 ω) (MulDigest.setup (CRS.setup u 4 ω) z).lv) (lv_make_header (lv_public_linear_params (CRS.setup u 4 ω) (MulDigest.setup (CRS.setup u 4 ω) z).lv) (CRS.setup u 4 ω) [r0, r1, r2, r3, r4, r5, r6, r7]).1
      (mul_prove (CRS.setup u 4 ω) (MulDigest.setup (CRS.setup u 4 ω) z) ⟨x, y, z⟩).lv = some (lv_make_header (lv_public_linear_params (CRS.setup u 4 ω) (MulDigest.setup (CRS.setup u 4 ω) z).lv) (CRS.setup u 4 ω) [r0, r1, r2, r3, r4, r5, r6, r7]).2 := by
    simp only [lv_key_from_header, build_proof_side_elems]
    rw [if_neg hWne]
    exact congrArg
      (fun g => some (kdf_from_gt_with_ctx g (lv_make_header (lv_public_linear_params (CRS.setup u 4 ω) (MulDigest.setup (CRS.setup u 4 ω) z).lv) (CRS.setup u 4 ω) [r0, r1, r2, r3, r4, r5, r6, r7]).1 (CRS.setup u 4 ω) (lv_public_linear_params (CRS.setup u 4 ω) (MulDigest.setup (CRS.setup u 4 ω) z).lv).shape)) hACC
  refine ⟨hpart1, ?_⟩
  have haead : aead_decrypt (lv_make_header (lv_public_linear_params (CRS.setup u 4 ω) (MulDigest.setup (CRS.setup u 4 ω) z).lv) (CRS.setup u 4 ω) [r0, r1, r2, r3, r4, r5, r6, r7]).2 nonce pt
      (aead_encrypt (CRS.setup u 4 ω) (lv_public_linear_params (CRS.setup u 4 ω) (MulDigest.setup (CRS.setup u 4 ω) z).lv).shape (lv_make_header (lv_public_linear_params (CRS.setup u 4 ω) (MulDigest.setup (CRS.setup u 4 ω) z).lv) (CRS.setup u 4 ω) [r0, r1, r2, r3, r4, r5, r6, r7]).1 (lv_make_header (lv_public_linear_params (CRS.setup u 4 ω) (MulDigest.setup (CRS.setup u 4 ω) z).lv) (CRS.setup u 4 ω) [r0, r1, r2, r3, r4, r5, r6, r7]).2 nonce pt).2
      (compute_aad (CRS.setup u 4 ω) (lv_public_linear_params (CRS.setup u 4 ω) (MulDigest.setup (CRS.setup u 4 ω) z).lv).shape (lv_make_header (lv_public_linear_params (CRS.setup u 4 ω) (MulDigest.setup (CRS.setup u 4 ω) z).lv) (CRS.setup u 4 ω) [r0, r1, r2, r3, r4, r5, r6, r7]).1) = true := by
    rw [aead_decrypt]
    exact decide_eq_true rfl
  simp only [decrypt_with_lv_header]
  rw [hpart1]
  show (if aead_decrypt (lv_make_header (lv_public_linear_params (CRS.setup u 4 ω) (MulDigest.setup (CRS.setup u 4 ω) z).lv) (CRS.setup u 4 ω) [r0, r1, r2, r3, r4, r5, r6, r7]).2 nonce pt
      (aead_encrypt (CRS.setup u 4 ω) (lv_public_linear_params (CRS.setup u 4 ω) (MulDigest.setup (CRS.setup u 4 ω) z).lv).shape (lv_make_header (lv_public_linear_params (CRS.setup u 4 ω) (MulDigest.setup (CRS.setup u 4 ω) z).lv) (CRS.setup u 4 ω) [r0, r1, r2, r3, r4, r5, r6, r7]).1 (lv_make_header (lv_public_linear_params (CRS.setup u 4 ω) (MulDigest.setup (CRS.setup u 4 ω) z).lv) (CRS.setup u 4 ω) [r0, r1, r2, r3, r4, r5, r6, r7]).2 nonce pt).2
      (compute_aad (CRS.setup u 4 ω) (lv_public_linear_params (CRS.setup u 4 ω) (MulDigest.setup (CRS.setup u 4 ω) z).lv).shape (lv_make_header (lv_public_linear_params (CRS.setup u 4 ω) (MulDigest.setup (CRS.setup u 4 ω) z).lv) (CRS.setup u 4 ω) [r0, r1, r2, r3, r4, r5, r6, r7]).1) = true
    then some pt else none) = some pt
  rw [if_pos haead]

/-- Concrete instantiation of the C1 theorem over `ZMod 5` with
`u = 1`, `ω = 2`, witness `(2, 3, 1)` (indeed `2·3 = 1` in `ZMod 5`),
row vector `r = [1,1,1,1,1,1,1,1]`, nonce `[0]` and plaintext `[1, 2]`. -/
theorem kem_correctness_witness :
    lv_key_from_header (CRS.setup 1 4 (2 : ZMod 5)) (MulDigest.setup (CRS.setup 1 4 (2 : ZMod 5)) 1).lv (lv_public_linear_params (CRS.setup 1 4 (2 : ZMod 5)) (MulDigest.setup (CRS.setup 1 4 (2 : ZMod 5)) 1).lv) (lv_make_header (lv_public_linear_params (CRS.setup 1 4 (2 : ZMod 5)) (MulDigest.setup (CRS.setup 1 4 (2 : ZMod 5)) 1).lv) (CRS.setup 1 4 (2 : ZMod 5)) [1, 1, 1, 1, 1, 1, 1, 1]).1 (mul_prove (CRS.setup 1 4 (2 : ZMod 5)) (MulDigest.setup (CRS.setup 1 4 (2 : ZMod 5)) 1) ⟨2, 3, 1⟩).lv
        = some (lv_make_header (lv_public_linear_params (CRS.setup 1 4 (2 : ZMod 5)) (MulDigest.setup (CRS.setup 1 4 (2 : ZMod 5)) 1).lv) (CRS.setup 1 4 (2 : ZMod 5)) [1, 1, 1, 1, 1, 1, 1, 1]).2 ∧
      decrypt_with_lv_header (CRS.setup 1 4 (2 : ZMod 5)) (MulDigest.setup (CRS.setup 1 4 (2 : ZMod 5)) 1).lv (lv_public_linear_params (CRS.setup 1 4 (2 : ZMod 5)) (MulDigest.setup (CRS.setup 1 4 (2 : ZMod 5)) 1).lv) (lv_make_header (lv_public_linear_params (CRS.setup 1 4 (2 : ZMod 5)) (MulDigest.setup (CRS.setup 1 4 (2 : ZMod 5)) 1).lv) (CRS.setup 1 4 (2 : ZMod 5)) [1, 1, 1, 1, 1, 1, 1, 1]).1 (mul_prove (CRS.setup 1 4 (2 : ZMod 5)) (MulDigest.setup (CRS.setup 1 4 (2 : ZMod 5)) 1) ⟨2, 3, 1⟩).lv
        [0] (aead_encrypt (CRS.setup 1 4 (2 : ZMod 5)) (lv_public_linear_params (CRS.setup 1 4 (2 : ZMod 5)) (MulDigest.setup (CRS.setup 1 4 (2 : ZMod 5)) 1).lv).shape (lv_make_header (lv_public_linear_params (CRS.setup 1 4 (2 : ZMod 5)) (MulDigest.setup (CRS.setup 1 4 (2 : ZMod 5)) 1).lv) (CRS.setup 1 4 (2 : ZMod 5)) [1, 1, 1, 1, 1, 1, 1, 1]).1 (lv_make_header (lv_public_linear_params (CRS.setup 1 4 (2 : ZMod 5)) (MulDigest.setup (CRS.setup 1 4 (2 : ZMod 5)) 1).lv) (CRS.setup 1 4 (2 : ZMod 5)) [1, 1, 1, 1, 1, 1, 1, 1]).2 [0] [1, 2]).1 (aead_encrypt (CRS.setup 1 4 (2 : ZMod 5)) (lv_public_linear_params (CRS.setup 1 4 (2 : ZMod 5)) (MulDigest.setup (CRS.setup 1 4 (2 : ZMod 5)) 1).lv).shape (lv_make_header (lv_public_linear_params (CRS.setup 1 4 (2 : ZMod 5)) (MulDigest.setup (CRS.setup 1 4 (2 : ZMod 5)) 1).lv) (CRS.setup 1 4 (2 : ZMod 5)) [1, 1, 1, 1, 1, 1, 1, 1]).1 (lv_make_header (lv_public_linear_params (CRS.setup 1 4 (2 : ZMod 5)) (MulDigest.setup (CRS.setup 1 4 (2 : ZMod 5)) 1).lv) (CRS.setup 1 4 (2 : ZMod 5)) [1, 1, 1, 1, 1, 1, 1, 1]).2 [0] [1, 2]).2 = some [1, 2] :=
  kem_correctness 1 (2 : ZMod 5) (by decide) (by decide) (by decide) 2 3 1
    (by decide) [1, 1, 1, 1, 1, 1, 1, 1] (by decide) [0] [1, 2]
    _ _ _ _ _ rfl rfl rfl rfl rfl

/-- Claim C3 is false as stated: over `ZMod 5`, replacing the honest
proof's witness vector `w` by `[]` makes `lv_verify` return `false`
(the length check fails), yet `decrypt_with_lv_header` still returns
`some` of the plaintext, because decryption never invokes `lv_verify`. -/
theorem decrypt_skips_lv_verify_cex :
    lv_verify (CRS.setup 1 4 (2 : ZMod 5)) (MulDigest.setup (CRS.setup 1 4 (2 : ZMod 5)) 1).lv
        { (mul_prove (CRS.setup 1 4 (2 : ZMod 5)) (MulDigest.setup (CRS.setup 1 4 (2 : ZMod 5)) 1) ⟨2, 3, 1⟩).lv with w := ([] : List (ZMod 5)) } = false ∧
      decrypt_with_lv_header (CRS.setup 1 4 (2 : ZMod 5)) (MulDigest.setup (CRS.setup 1 4 (2 : ZMod 5)) 1).lv (lv_public_linear_params (CRS.setup 1 4 (2 : ZMod 5)) (MulDigest.setup (CRS.setup 1 4 (2 : ZMod 5)) 1).lv) (lv_make_header (lv_public_linear_params (CRS.setup 1 4 (2 : ZMod 5)) (MulDigest.setup (CRS.setup 1 4 (2 : ZMod 5)) 1).lv) (CRS.setup 1 4 (2 : ZMod 5)) [1, 1, 1, 1, 1, 1, 1, 1]).1
        { (mul_prove (CRS.setup 1 4 (2 : ZMod 5)) (MulDigest.setup (CRS.setup 1 4 (2 : ZMod 5)) 1) ⟨2, 3, 1⟩).lv with w := ([] : List (ZMod 5)) }
        [0] (aead_encrypt (CRS.setup 1 4 (2 : ZMod 5)) (lv_public_linear_params (CRS.setup 1 4 (2 : ZMod 5)) (MulDigest.setup (CRS.setup 1 4 (2 : ZMod 5)) 1).lv).shape (lv_make_header (lv_public_linear_params (CRS.setup 1 4 (2 : ZMod 5)) (MulDigest.setup (CRS.setup 1 4 (2 : ZMod 5)) 1).lv) (CRS.setup 1 4 (2 : ZMod 5)) [1, 1, 1, 1, 1, 1, 1, 1]).1 (lv_make_header (lv_public_linear_params (CRS.setup 1 4 (2 : ZMod 5)) (MulDigest.setup (CRS.setup 1 4 (2 : ZMod 5)) 1).lv) (CRS.setup 1 4 (2 : ZMod 5)) [1, 1, 1, 1, 1, 1, 1, 1]).2 [0] [1, 2]).1 (aead_encrypt (CRS.setup 1 4 (2 : ZMod 5)) (lv_public_linear_params (CRS.setup 1 4 (2 : ZMod 5)) (MulDigest.setup (CRS.setup 1 4 (2 : ZMod 5)) 1).lv).shape (lv_make_header (lv_public_linear_params (CRS.setup 1 4 (2 : ZMod 5)) (MulDigest.setup (CRS.setup 1 4 (2 : ZMod 5)) 1).lv) (CRS.setup 1 4 (2 : ZMod 5)) [1, 1, 1, 1, 1, 1, 1, 1]).1 (lv_make_header (lv_public_linear_params (CRS.setup 1 4 (2 : ZMod 5)) (MulDigest.setup (CRS.setup 1 4 (2 : ZMod 5)) 1).lv) (CRS.setup 1 4 (2 : ZMod 5)) [1, 1, 1, 1, 1, 1, 1, 1]).2 [0] [1, 2]).2 = some [1, 2] := by
  constructor
  · rfl
  have h0 := iip_eq1_setup 1 4 (2 : ZMod 5) [0, 0, 1, 0] [2, 3, 1, 1]
  have h1 := iip_eq2_setup 1 4 (2 : ZMod 5) [0, 0, 1, 0] [2, 3, 1, 1]
  have h2 := iip_eq3_setup 1 4 (2 : ZMod 5) [0, 0, 1, 0] [2, 3, 1, 1]
  have h3 := nonzero_eq_setup 1 4 (2 : ZMod 5) (by decide) (by decide) (by decide)
    [2, 3, 1, 1] 3 (by norm_num) rfl
  have h4a : commit_poly_g1 (CRS.setup 1 4 (2 : ZMod 5)) (mul_qap_p ⟨2, 3, 1⟩) = 0 := by
    rw [commit_g1_setup]
    exact mul_qap_p_eval ((1 : ℕ) : ZMod 5) ⟨2, 3, 1⟩ (by decide)
  have h4b : commit_poly_g1 (CRS.setup 1 4 (2 : ZMod 5)) (compute_h_poly ⟨2, 3, 1⟩) = 0 := by
    rw [compute_h_poly_eq]
    rfl
  have hv : (iip_prove (CRS.setup 1 4 (2 : ZMod 5)) [0, 0, 1, 0] [2, 3, 1, 1]).v_g1 = 1 := by
    show (1 : ZMod 5) * (0 + 2 * 0 + 3 * 0 + 1 * 1 + 1 * 0) = 1
    ring
  have hC : commit_poly_g1 (CRS.setup 1 4 (2 : ZMod 5)) [(1 : ZMod 5)] = 1 := by
    rw [commit_g1_setup]
    show (1 : ZMod 5) + ((1 : ℕ) : ZMod 5) * 0 = 1
    ring
  have h6 : (((1 : ℕ) : ZMod 5) ^ 9) * (iip_prove (CRS.setup 1 4 (2 : ZMod 5)) [0, 0, 1, 0] [2, 3, 1, 1]).w_tau_2 =
      commit_poly_g1 (CRS.setup 1 4 (2 : ZMod 5)) (mul_by_xk (interpolate (CRS.setup 1 4 (2 : ZMod 5)) [2, 3, 1, 1]) 9) * 1 := by
    have hW : (iip_prove (CRS.setup 1 4 (2 : ZMod 5)) [0, 0, 1, 0] [2, 3, 1, 1]).w_tau_2 =
        evalA ((1 : ℕ) : ZMod 5) (interpolate (CRS.setup 1 4 (2 : ZMod 5)) [2, 3, 1, 1]) := by
      show commit_poly_g2 (CRS.setup 1 4 (2 : ZMod 5)) (interpolate (CRS.setup 1 4 (2 : ZMod 5)) [2, 3, 1, 1]) = _
      exact commit_g2_setup 1 4 (2 : ZMod 5) _
    rw [commit_g1_setup, evalA_mul_by_xk, hW]
    ring
  have hACC :
      (0 : ZMod 5)
        + pairing ((iip_digest (CRS.setup 1 4 (2 : ZMod 5)) [0, 0, 1, 0]).C * (0 + 1)) (iip_prove (CRS.setup 1 4 (2 : ZMod 5)) [0, 0, 1, 0] [2, 3, 1, 1]).w_tau_2
        + pairing ((iip_prove (CRS.setup 1 4 (2 : ZMod 5)) [0, 0, 1, 0] [2, 3, 1, 1]).v_g1 * (iip_digest (CRS.setup 1 4 (2 : ZMod 5)) [0, 0, 1, 0]).y_star⁻¹) (1 * (0 - 1))
        + pairing (iip_prove (CRS.setup 1 4 (2 : ZMod 5)) [0, 0, 1, 0] [2, 3, 1, 1]).QX_tau_1 ((iip_digest (CRS.setup 1 4 (2 : ZMod 5)) [0, 0, 1, 0]).tau_2 * (0 - 1))
        + pairing (iip_prove (CRS.setup 1 4 (2 : ZMod 5)) [0, 0, 1, 0] [2, 3, 1, 1]).QZ_tau_1 ((iip_digest (CRS.setup 1 4 (2 : ZMod 5)) [0, 0, 1, 0]).Z_tau_2 * (0 - 1))
        + pairing (iip_prove (CRS.setup 1 4 (2 : ZMod 5)) [0, 0, 1, 0] [2, 3, 1, 1]).QX_tau_1 ((iip_digest (CRS.setup 1 4 (2 : ZMod 5)) [0, 0, 1, 0]).tau_N_minus_n_plus_2_2 * (0 + 1))
        + pairing (iip_prove (CRS.setup 1 4 (2 : ZMod 5)) [0, 0, 1, 0] [2, 3, 1, 1]).QX_hat_tau_1 (1 * (0 - 1))
        + pairing (iip_prove (CRS.setup 1 4 (2 : ZMod 5)) [0, 0, 1, 0] [2, 3, 1, 1]).v_g1 ((iip_digest (CRS.setup 1 4 (2 : ZMod 5)) [0, 0, 1, 0]).tau_N_2 * (0 + 1))
        + pairing (iip_prove (CRS.setup 1 4 (2 : ZMod 5)) [0, 0, 1, 0] [2, 3, 1, 1]).v_hat_tau_1 (1 * (0 - 1))
        + pairing (1 * (0 + 1)) (nonzero_prove (CRS.setup 1 4 (2 : ZMod 5)) [2, 3, 1, 1] 3).w_tau_2
        + pairing (nonzero_prove (CRS.setup 1 4 (2 : ZMod 5)) [2, 3, 1, 1] 3).q0_tau_1
            (((CRS.setup 1 4 (2 : ZMod 5)).g2_tau_pow 1 - 1 * (CRS.setup 1 4 (2 : ZMod 5)).domainElement 3) * (0 - 1))
        + pairing (commit_poly_g1 (CRS.setup 1 4 (2 : ZMod 5)) (mul_qap_p ⟨2, 3, 1⟩)) (1 * (0 + 1))
        + pairing (commit_poly_g1 (CRS.setup 1 4 (2 : ZMod 5)) (compute_h_poly ⟨2, 3, 1⟩))
            (commit_poly_g2 (CRS.setup 1 4 (2 : ZMod 5)) mul_z_poly * (0 - 1))
        + pairing (commit_poly_g1 (CRS.setup 1 4 (2 : ZMod 5)) [(2 : ZMod 5)]) (1 * 0)
        + pairing (commit_poly_g1 (CRS.setup 1 4 (2 : ZMod 5)) [(3 : ZMod 5)]) (1 * 0)
        + pairing (iip_prove (CRS.setup 1 4 (2 : ZMod 5)) [0, 0, 1, 0] [2, 3, 1, 1]).v_g1 (1 * (0 + 1 + 1))
        + pairing (commit_poly_g1 (CRS.setup 1 4 (2 : ZMod 5)) [(1 : ZMod 5)]) (1 * (0 - 1))
        + pairing (((1 : ℕ) : ZMod 5) ^ 9 * (0 + 1)) (iip_prove (CRS.setup 1 4 (2 : ZMod 5)) [0, 0, 1, 0] [2, 3, 1, 1]).w_tau_2
        + pairing
            (commit_poly_g1 (CRS.setup 1 4 (2 : ZMod 5)) (mul_by_xk (interpolate (CRS.setup 1 4 (2 : ZMod 5)) [2, 3, 1, 1]) 9))
            (1 * (0 - 1)) =
      (0 : ZMod 5) + 1 * 0 + 1 * 0 + 1 * 0 + 1 * pairing 1 1 + 1 * 0 + 1 * 0
        + 1 * 0 + 1 * pairing (1 * 1) 1 := by
    simp only [pairing] at h0 h1 h2 h3 h6 ⊢
    rw [hv] at h0 h2 ⊢
    rw [hC, h4a, h4b]
    linear_combination h0 + h1 + h2 + h3 + h6
  have hWne : ¬({ (mul_prove (CRS.setup 1 4 (2 : ZMod 5)) (MulDigest.setup (CRS.setup 1 4 (2 : ZMod 5)) 1) ⟨2, 3, 1⟩).lv with w := ([] : List (ZMod 5)) }.iip_z.w_tau_2 ≠
      { (mul_prove (CRS.setup 1 4 (2 : ZMod 5)) (MulDigest.setup (CRS.setup 1 4 (2 : ZMod 5)) 1) ⟨2, 3, 1⟩).lv with w := ([] : List (ZMod 5)) }.nz.w_tau_2) :=
    fun hcon => hcon rfl
  have hpart1 : lv_key_from_header (CRS.setup 1 4 (2 : ZMod 5)) (MulDigest.setup (CRS.setup 1 4 (2 : ZMod 5)) 1).lv (lv_public_linear_params (CRS.setup 1 4 (2 : ZMod 5)) (MulDigest.setup (CRS.setup 1 4 (2 : ZMod 5)) 1).lv) (lv_make_header (lv_public_linear_params (CRS.setup 1 4 (2 : ZMod 5)) (MulDigest.setup (CRS.setup 1 4 (2 : ZMod 5)) 1).lv) (CRS.setup 1 4 (2 : ZMod 5)) [1, 1, 1, 1, 1, 1, 1, 1]).1
      { (mul_prove (CRS.setup 1 4 (2 : ZMod 5)) (MulDigest.setup (CRS.setup 1 4 (2 : ZMod 5)) 1) ⟨2, 3, 1⟩).lv with w := ([] : List (ZMod 5)) } = some (lv_make_header (lv_public_linear_params (CRS.setup 1 4 (2 : ZMod 5)) (MulDigest.setup (CRS.setup 1 4 (2 : ZMod 5)) 1).lv) (CRS.setup 1 4 (2 : ZMod 5)) [1, 1, 1, 1, 1, 1, 1, 1]).2 := by
    simp only [lv_key_from_header, build_proof_side_elems]
    rw [if_neg hWne]
    exact congrArg
      (fun g => some (kdf_from_gt_with_ctx g (lv_make_header (lv_public_linear_params (CRS.setup 1 4 (2 : ZMod 5)) (MulDigest.setup (CRS.setup 1 4 (2 : ZMod 5)) 1).lv) (CRS.setup 1 4 (2 : ZMod 5)) [1, 1, 1, 1, 1, 1, 1, 1]).1 (CRS.setup 1 4 (2 : ZMod 5)) (lv_public_linear_params (CRS.setup 1 4 (2 : ZMod 5)) (MulDigest.setup (CRS.setup 1 4 (2 : ZMod 5)) 1).lv).shape)) hACC
  have haead : aead_decrypt (lv_make_header (lv_public_linear_params (CRS.setup 1 4 (2 : ZMod 5)) (MulDigest.setup (CRS.setup 1 4 (2 : ZMod 5)) 1).lv) (CRS.setup 1 4 (2 : ZMod 5)) [1, 1, 1, 1, 1, 1, 1, 1]).2 [0] [1, 2]
      (aead_encrypt (CRS.setup 1 4 (2 : ZMod 5)) (lv_public_linear_params (CRS.setup 1 4 (2 : ZMod 5)) (MulDigest.setup (CRS.setup 1 4 (2 : ZMod 5)) 1).lv).shape (lv_make_header (lv_public_linear_params (CRS.setup 1 4 (2 : ZMod 5)) (MulDigest.setup (CRS.setup 1 4 (2 : ZMod 5)) 1).lv) (CRS.setup 1 4 (2 : ZMod 5)) [1, 1, 1, 1, 1, 1, 1, 1]).1 (lv_make_header (lv_public_linear_params (CRS.setup 1 4 (2 : ZMod 5)) (MulDigest.setup (CRS.setup 1 4 (2 : ZMod 5)) 1).lv) (CRS.setup 1 4 (2 : ZMod 5)) [1, 1, 1, 1, 1, 1, 1, 1]).2 [0] [1, 2]).2
      (compute_aad (CRS.setup 1 4 (2 : ZMod 5)) (lv_public_linear_params (CRS.setup 1 4 (2 : ZMod 5)) (MulDigest.setup (CRS.setup 1 4 (2 : ZMod 5)) 1).lv).shape (lv_make_header (lv_public_linear_params (CRS.setup 1 4 (2 : ZMod 5)) (MulDigest.setup (CRS.setup 1 4 (2 : ZMod 5)) 1).lv) (CRS.setup 1 4 (2 : ZMod 5)) [1, 1, 1, 1, 1, 1, 1, 1]).1) = true := by
    rw [aead_decrypt]
    exact decide_eq_true rfl
  simp only [decrypt_with_lv_header]
  rw [hpart1]
  show (if aead_decrypt (lv_make_header (lv_public_linear_params (CRS.setup 1 4 (2 : ZMod 5)) (MulDigest.setup (CRS.setup 1 4 (2 : ZMod 5)) 1).lv) (CRS.setup 1 4 (2 : ZMod 5)) [1, 1, 1, 1, 1, 1, 1, 1]).2 [0] [1, 2]
      (aead_encrypt (CRS.setup 1 4 (2 : ZMod 5)) (lv_public_linear_params (CRS.setup 1 4 (2 : ZMod 5)) (MulDigest.setup (CRS.setup 1 4 (2 : ZMod 5)) 1).lv).shape (lv_make_header (lv_public_linear_params (CRS.setup 1 4 (2 : ZMod 5)) (MulDigest.setup (CRS.setup 1 4 (2 : ZMod 5)) 1).lv) (CRS.setup 1 4 (2 : ZMod 5)) [1, 1, 1, 1, 1, 1, 1, 1]).1 (lv_make_header (lv_public_linear_params (CRS.setup 1 4 (2 : ZMod 5)) (MulDigest.setup (CRS.setup 1 4 (2 : ZMod 5)) 1).lv) (CRS.setup 1 4 (2 : ZMod 5)) [1, 1, 1, 1, 1, 1, 1, 1]).2 [0] [1, 2]).2
      (compute_aad (CRS.setup 1 4 (2 : ZMod 5)) (lv_public_linear_params (CRS.setup 1 4 (2 : ZMod 5)) (MulDigest.setup (CRS.setup 1 4 (2 : ZMod 5)) 1).lv).shape (lv_make_header (lv_public_linear_params (CRS.setup 1 4 (2 : ZMod 5)) (MulDigest.setup (CRS.setup 1 4 (2 : ZMod 5)) 1).lv) (CRS.setup 1 4 (2 : ZMod 5)) [1, 1, 1, 1, 1, 1, 1, 1]).1) = true
    then some [1, 2] else none) = some [1, 2]
  rw [if_pos haead]

/-- Claim C3 (amended): `decrypt_with_lv_header` does not invoke
`lv_verify`.  Whenever the header length differs from `LV_NUM_COORDS`, or
the proof's two `B(τ)`-commitments (`pi.iip_z.w_tau_2` and
`pi.nz.w_tau_2`) disagree, decryption returns `none` — these checks inside
`lv_key_from_header` are sufficient conditions for rejection, not a full
characterization (decryption also rejects, e.g., on a column-orientation
mismatch or through the AEAD tag check). -/
theorem decrypt_skips_lv_verify (crs : CRS F) (dg : LVDigest F)
    (params : LVPublicLinearParams F) (hdr : LVHeader F) (pi : LVProof F)
    (nonce ct : List ℕ) (tag : AeadTag F)
    (h : hdr.c1.length ≠ LV_NUM_COORDS ∨ pi.iip_z.w_tau_2 ≠ pi.nz.w_tau_2) :
    decrypt_with_lv_header crs dg params hdr pi nonce ct tag = none := by
  rcases h with h | h
  · simp only [decrypt_with_lv_header, lv_key_from_header]
    rw [if_pos h]
  · simp only [decrypt_with_lv_header, lv_key_from_header, build_proof_side_elems]
    rw [if_pos h]
    by_cases hl : hdr.c1.length ≠ LV_NUM_COORDS
    · rw [if_pos hl]
    · rw [if_neg hl]

/-- Concrete instantiation of the amended C3 theorem over `ZMod 5`:
an empty header is rejected even with the honest proof attached. -/
theorem decrypt_skips_lv_verify_witness :
    (⟨[]⟩ : LVHeader (ZMod 5)).c1.length ≠ LV_NUM_COORDS ∧
      decrypt_with_lv_header (CRS.setup 1 4 (2 : ZMod 5)) (MulDigest.setup (CRS.setup 1 4 (2 : ZMod 5)) 1).lv (lv_public_linear_params (CRS.setup 1 4 (2 : ZMod 5)) (MulDigest.setup (CRS.setup 1 4 (2 : ZMod 5)) 1).lv) (⟨[]⟩ : LVHeader (ZMod 5))
        (mul_prove (CRS.setup 1 4 (2 : ZMod 5)) (MulDigest.setup (CRS.setup 1 4 (2 : ZMod 5)) 1) ⟨2, 3, 1⟩).lv [0] [1, 2] (aead_encrypt (CRS.setup 1 4 (2 : ZMod 5)) (lv_public_linear_params (CRS.setup 1 4 (2 : ZMod 5)) (MulDigest.setup (CRS.setup 1 4 (2 : ZMod 5)) 1).lv).shape (lv_make_header (lv_public_linear_params (CRS.setup 1 4 (2 : ZMod 5)) (MulDigest.setup (CRS.setup 1 4 (2 : ZMod 5)) 1).lv) (CRS.setup 1 4 (2 : ZMod 5)) [1, 1, 1, 1, 1, 1, 1, 1]).1 (lv_make_header (lv_public_linear_params (CRS.setup 1 4 (2 : ZMod 5)) (MulDigest.setup (CRS.setup 1 4 (2 : ZMod 5)) 1).lv) (CRS.setup 1 4 (2 : ZMod 5)) [1, 1, 1, 1, 1, 1, 1, 1]).2 [0] [1, 2]).2 = none :=
  ⟨by decide,
    decrypt_skips_lv_verify (CRS.setup 1 4 (2 : ZMod 5)) (MulDigest.setup (CRS.setup 1 4 (2 : ZMod 5)) 1).lv (lv_public_linear_params (CRS.setup 1 4 (2 : ZMod 5)) (MulDigest.setup (CRS.setup 1 4 (2 : ZMod 5)) 1).lv) (⟨[]⟩ : LVHeader (ZMod 5))
      (mul_prove (CRS.setup 1 4 (2 : ZMod 5)) (MulDigest.setup (CRS.setup 1 4 (2 : ZMod 5)) 1) ⟨2, 3, 1⟩).lv [0] [1, 2] (aead_encrypt (CRS.setup 1 4 (2 : ZMod 5)) (lv_public_linear_params (CRS.setup 1 4 (2 : ZMod 5)) (MulDigest.setup (CRS.setup 1 4 (2 : ZMod 5)) 1).lv).shape (lv_make_header (lv_public_linear_params (CRS.setup 1 4 (2 : ZMod 5)) (MulDigest.setup (CRS.setup 1 4 (2 : ZMod 5)) 1).lv) (CRS.setup 1 4 (2 : ZMod 5)) [1, 1, 1, 1, 1, 1, 1, 1]).1 (lv_make_header (lv_public_linear_params (CRS.setup 1 4 (2 : ZMod 5)) (MulDigest.setup (CRS.setup 1 4 (2 : ZMod 5)) 1).lv) (CRS.setup 1 4 (2 : ZMod 5)) [1, 1, 1, 1, 1, 1, 1, 1]).2 [0] [1, 2]).2 (Or.inl (by decide))⟩

end WeSnark
